import Mathlib

/-!
# atheepmgr: AR9287 EEPROM acquisition and validation

A shallow embedding of `eep_9287_fill_eeprom` and `eep_9287_check_eeprom`
(`eep_9287.c`) and of `hw_eeprom_read` / `hw_eeprom_write` (`hw.c`), with the
properties of the acquisition-and-validation pipeline proved about them.

Machine integers are natural numbers; truncation to a C type is written as an
explicit `%`.  The device context (`struct atheepmgr`, called `struct edump`
in `hw.c`) is passed explicitly and returned by every operation that changes
it.
-/

namespace Atheepmgr

/-! ## Constants of the headers -/

/-- The preprocessor constants of `atheepmgr.h`, `eep_common.h` and
`eep_9287.h` which the embedded functions use.  The headers are not part of
the sources, so the values are parameters of the development. -/
structure eep_consts where
  AR5416_EEPROM_MAGIC : Nat
  AR5416_EEPROM_MAGIC_OFFSET : Nat
  AR5416_EEP_VER : Nat
  AR5416_EEP_NO_BACK_VER : Nat
  AR5416_EEPMISC_BIG_ENDIAN : Nat
  AR9287_DATA_START_LOC : Nat
  AR9287_DATA_SZ : Nat
  AR9287_MAX_CHAINS : Nat
  AR_EEPROM_MODAL_SPURS : Nat

/-- The `eep_buf_sz` member of `eepmap_9287`:
`AR9287_DATA_START_LOC + AR9287_DATA_SZ`. -/
def eepmap_9287_eep_buf_sz (c : eep_consts) : Nat :=
  c.AR9287_DATA_START_LOC + c.AR9287_DATA_SZ

/-! ## Byte swapping -/

/-- The C library's `bswap_16` on a `uint16_t` argument: the two bytes of the
low 16 bits exchanged. -/
def bswap_16 (x : Nat) : Nat :=
  (x % 256) * 256 + (x / 256) % 256

/-- The C library's `bswap_32` on a `uint32_t` argument: the four bytes of the
low 32 bits in reverse order. -/
def bswap_32 (x : Nat) : Nat :=
  (x % 256) * 16777216 + ((x / 256) % 256) * 65536
    + ((x / 65536) % 256) * 256 + (x / 16777216) % 256

/-- The `w` low bytes of `x`, least significant first. -/
def toBytesLE : Nat → Nat → List Nat
  | 0, _ => []
  | w + 1, x => (x % 256) :: toBytesLE w (x / 256)

/-- The number whose bytes, least significant first, are the given list. -/
def ofBytesLE : List Nat → Nat
  | [] => 0
  | b :: bs => b + 256 * ofBytesLE bs

/-- Byte-reversal of a value over a field of `w` bytes. -/
def byte_reverse (w x : Nat) : Nat :=
  ofBytesLE (toBytesLE w x).reverse

/-! ## Data model -/

/-- The fields of `struct ar9287_eeprom` that `eep_9287.c` names, one
constructor per scalar field and one indexed constructor per array; the
cells of the record the file never names individually are `other`. -/
inductive ar9287_field where
  -- baseEepHeader
  | length
  | checksum
  | version
  | opCapFlags
  | eepMisc
  | regDmn (i : Nat)
  | macAddr (i : Nat)
  | rxMask
  | txMask
  | rfSilent
  | blueToothOptions
  | deviceCap
  | binBuildNumber
  | deviceType
  | openLoopPwrCntl
  -- custData
  | custData (i : Nat)
  -- modalHeader
  | antCtrlChain (i : Nat)
  | antCtrlCommon
  | antennaGainCh (i : Nat)
  | switchSettling
  | txRxAttenCh (i : Nat)
  | rxTxMarginCh (i : Nat)
  | adcDesiredSize
  | txEndToXpaOff
  | txEndToRxOn
  | txFrameToXpaOn
  | thresh62
  | noiseFloorThreshCh (i : Nat)
  | xpdGain
  | xpd
  | iqCalICh (i : Nat)
  | iqCalQCh (i : Nat)
  | pdGainOverlap
  | xpaBiasLvl
  | txFrameToDataStart
  | txFrameToPaOn
  | ht40PowerIncForPdadc
  | bswAtten (i : Nat)
  | bswMargin (i : Nat)
  | swSettleHt40
  | modal_version
  | db1
  | ob_cck
  | ob_psk
  | ob_qam
  | ob_pal_off
  | spurChan (i : Nat)
  -- calibration tables and every cell not named above
  | calTargetPowerCck (i : Nat)
  | calTargetPower2G (i : Nat)
  | calTargetPower2GHT20 (i : Nat)
  | calTargetPower2GHT40 (i : Nat)
  | ctlIndex (i : Nat)
  | ctlData (i : Nat)
  | other (i : Nat)

/-- A numbering of the fields: the position of the constructor and, for an
array, the index. -/
def ar9287_field.code : ar9287_field → Nat × Nat
  | .length => (0, 0)
  | .checksum => (1, 0)
  | .version => (2, 0)
  | .opCapFlags => (3, 0)
  | .eepMisc => (4, 0)
  | .regDmn i => (5, i)
  | .macAddr i => (6, i)
  | .rxMask => (7, 0)
  | .txMask => (8, 0)
  | .rfSilent => (9, 0)
  | .blueToothOptions => (10, 0)
  | .deviceCap => (11, 0)
  | .binBuildNumber => (12, 0)
  | .deviceType => (13, 0)
  | .openLoopPwrCntl => (14, 0)
  | .custData i => (15, i)
  | .antCtrlChain i => (16, i)
  | .antCtrlCommon => (17, 0)
  | .antennaGainCh i => (18, i)
  | .switchSettling => (19, 0)
  | .txRxAttenCh i => (20, i)
  | .rxTxMarginCh i => (21, i)
  | .adcDesiredSize => (22, 0)
  | .txEndToXpaOff => (23, 0)
  | .txEndToRxOn => (24, 0)
  | .txFrameToXpaOn => (25, 0)
  | .thresh62 => (26, 0)
  | .noiseFloorThreshCh i => (27, i)
  | .xpdGain => (28, 0)
  | .xpd => (29, 0)
  | .iqCalICh i => (30, i)
  | .iqCalQCh i => (31, i)
  | .pdGainOverlap => (32, 0)
  | .xpaBiasLvl => (33, 0)
  | .txFrameToDataStart => (34, 0)
  | .txFrameToPaOn => (35, 0)
  | .ht40PowerIncForPdadc => (36, 0)
  | .bswAtten i => (37, i)
  | .bswMargin i => (38, i)
  | .swSettleHt40 => (39, 0)
  | .modal_version => (40, 0)
  | .db1 => (41, 0)
  | .ob_cck => (42, 0)
  | .ob_psk => (43, 0)
  | .ob_qam => (44, 0)
  | .ob_pal_off => (45, 0)
  | .spurChan i => (46, i)
  | .calTargetPowerCck i => (47, i)
  | .calTargetPower2G i => (48, i)
  | .calTargetPower2GHT20 i => (49, i)
  | .calTargetPower2GHT40 i => (50, i)
  | .ctlIndex i => (51, i)
  | .ctlData i => (52, i)
  | .other i => (53, i)

/-- The field with a given number. -/
def ar9287_field.ofCode (p : Nat × Nat) : Option ar9287_field :=
  if p.1 = 0 then some .length
  else if p.1 = 1 then some .checksum
  else if p.1 = 2 then some .version
  else if p.1 = 3 then some .opCapFlags
  else if p.1 = 4 then some .eepMisc
  else if p.1 = 5 then some (.regDmn p.2)
  else if p.1 = 6 then some (.macAddr p.2)
  else if p.1 = 7 then some .rxMask
  else if p.1 = 8 then some .txMask
  else if p.1 = 9 then some .rfSilent
  else if p.1 = 10 then some .blueToothOptions
  else if p.1 = 11 then some .deviceCap
  else if p.1 = 12 then some .binBuildNumber
  else if p.1 = 13 then some .deviceType
  else if p.1 = 14 then some .openLoopPwrCntl
  else if p.1 = 15 then some (.custData p.2)
  else if p.1 = 16 then some (.antCtrlChain p.2)
  else if p.1 = 17 then some .antCtrlCommon
  else if p.1 = 18 then some (.antennaGainCh p.2)
  else if p.1 = 19 then some .switchSettling
  else if p.1 = 20 then some (.txRxAttenCh p.2)
  else if p.1 = 21 then some (.rxTxMarginCh p.2)
  else if p.1 = 22 then some .adcDesiredSize
  else if p.1 = 23 then some .txEndToXpaOff
  else if p.1 = 24 then some .txEndToRxOn
  else if p.1 = 25 then some .txFrameToXpaOn
  else if p.1 = 26 then some .thresh62
  else if p.1 = 27 then some (.noiseFloorThreshCh p.2)
  else if p.1 = 28 then some .xpdGain
  else if p.1 = 29 then some .xpd
  else if p.1 = 30 then some (.iqCalICh p.2)
  else if p.1 = 31 then some (.iqCalQCh p.2)
  else if p.1 = 32 then some .pdGainOverlap
  else if p.1 = 33 then some .xpaBiasLvl
  else if p.1 = 34 then some .txFrameToDataStart
  else if p.1 = 35 then some .txFrameToPaOn
  else if p.1 = 36 then some .ht40PowerIncForPdadc
  else if p.1 = 37 then some (.bswAtten p.2)
  else if p.1 = 38 then some (.bswMargin p.2)
  else if p.1 = 39 then some .swSettleHt40
  else if p.1 = 40 then some .modal_version
  else if p.1 = 41 then some .db1
  else if p.1 = 42 then some .ob_cck
  else if p.1 = 43 then some .ob_psk
  else if p.1 = 44 then some .ob_qam
  else if p.1 = 45 then some .ob_pal_off
  else if p.1 = 46 then some (.spurChan p.2)
  else if p.1 = 47 then some (.calTargetPowerCck p.2)
  else if p.1 = 48 then some (.calTargetPower2G p.2)
  else if p.1 = 49 then some (.calTargetPower2GHT20 p.2)
  else if p.1 = 50 then some (.calTargetPower2GHT40 p.2)
  else if p.1 = 51 then some (.ctlIndex p.2)
  else if p.1 = 52 then some (.ctlData p.2)
  else if p.1 = 53 then some (.other p.2)
  else none

instance : DecidableEq ar9287_field := fun a b =>
  decidable_of_iff (a.code = b.code)
    ⟨fun h => by
      have ha : ar9287_field.ofCode a.code = some a := by cases a <;> rfl
      have hb : ar9287_field.ofCode b.code = some b := by cases b <;> rfl
      rw [h, hb] at ha
      exact (Option.some.inj ha).symm,
     fun h => by rw [h]⟩


/-- The width in bytes over which the endianness branch of
`eep_9287_check_eeprom` (lines 93 to 136) handles a field: two for a field it
passes through `uint16_t word` and `bswap_16`, four for a field it passes
through `uint32_t integer` and `bswap_32`, one for a field it does not
touch. -/
def ar9287_field.width : ar9287_field → Nat
  | .length => 2
  | .checksum => 2
  | .version => 2
  | .regDmn _ => 2
  | .rfSilent => 2
  | .blueToothOptions => 2
  | .deviceCap => 2
  | .spurChan _ => 2
  | .binBuildNumber => 4
  | .antCtrlCommon => 4
  | .antCtrlChain _ => 4
  | _ => 1

/-- Whether an indexed field lies inside its array: `regDmn` has the two
elements the source names, `antCtrlChain` has `AR9287_MAX_CHAINS` and
`spurChans` has `AR_EEPROM_MODAL_SPURS`, the bounds of the loops over them. -/
def ar9287_field.declared (c : eep_consts) : ar9287_field → Bool
  | .regDmn i => decide (i < 2)
  | .antCtrlChain i => decide (i < c.AR9287_MAX_CHAINS)
  | .spurChan i => decide (i < c.AR_EEPROM_MODAL_SPURS)
  | _ => true

/-- The calibration record `struct ar9287_eeprom`, as the value of each of
its fields. -/
def ar9287_eeprom : Type := ar9287_field → Nat

/-- Assignment to one field of the record. -/
def ar9287_eeprom.set (e : ar9287_eeprom) (f : ar9287_field) (v : Nat) :
    ar9287_eeprom :=
  fun g => if g = f then v else e g

/-- The head of `struct ar5416_init`, the typed view of the init block. -/
structure ar5416_init where
  magic : Nat
  prot : Nat
  iptr : Nat
  regs : List (Nat × Nat)

/-- The typed view of `struct eep_9287_priv` that `eep_9287_check_eeprom`
works on. -/
structure eep_9287_priv where
  ini : ar5416_init
  eep : ar9287_eeprom

/-- The word view of `struct eep_9287_priv` that `eep_9287_fill_eeprom` works
on through its casts `(uint16_t *)&emp->ini` and `(uint16_t *)&emp->eep`. -/
structure eep_9287_words where
  init_data : List Nat
  eep_data : List Nat
  deriving DecidableEq

/-- The backend operations `con->eep_read` and `con->eep_write`.  A read gets
the offset and the former content of the output word and gives its status and
the content it leaves in the output word; a write gets the offset and the
word and gives its status. -/
structure eep_con where
  eep_read : Nat → Nat → Bool × Nat
  eep_write : Nat → Nat → Bool

/-- The device context `struct atheepmgr` (`struct edump` in `hw.c`), with
its private EEPROM map data of type `P` (`void *eepmap_priv`).  The last
three members are not in the C structure: they record, in order, the offsets
of the backend reads, the offset and word of the backend writes, and the
indices of `eep_buf` handed to the checksum. -/
structure atheepmgr (P : Type) where
  con : eep_con
  host_is_be : Bool
  eep_io_swap : Bool
  eep_buf : List Nat
  eep_len : Nat
  eepmap_priv : P
  con_reads : List Nat
  con_writes : List (Nat × Nat)
  buf_reads : List Nat

/-! ## `hw.c` -/

/-- `hw_eeprom_read`: the status, the content of `*data` afterwards and the
context afterwards. -/
def hw_eeprom_read {P : Type} (aem : atheepmgr P) (off : Nat) (data : Nat) :
    Bool × Nat × atheepmgr P :=
  let r := aem.con.eep_read off data
  let aem1 := { aem with con_reads := aem.con_reads ++ [off] }
  if !r.1 then
    (false, r.2, aem1)
  else
    let data1 := if aem1.eep_io_swap then bswap_16 r.2 else r.2
    (true, data1, aem1)

/-- `hw_eeprom_write`: the status and the context afterwards. -/
def hw_eeprom_write {P : Type} (aem : atheepmgr P) (off : Nat) (data : Nat) :
    Bool × atheepmgr P :=
  let data1 := if aem.eep_io_swap then bswap_16 data else data
  let ok := aem.con.eep_write off data1
  let aem1 := { aem with con_writes := aem.con_writes ++ [(off, data1)] }
  if !ok then
    (false, aem1)
  else
    (true, aem1)

/-! ## `eep_9287.c` -/

/-- `eep_9287_get_ver`. -/
def eep_9287_get_ver (emp : eep_9287_priv) : Nat :=
  (emp.eep .version >>> 12) &&& 0xF

/-- `eep_9287_get_rev`. -/
def eep_9287_get_rev (emp : eep_9287_priv) : Nat :=
  emp.eep .version &&& 0xFFF

/-- `word = bswap_16(eep->f); eep->f = word;` -/
def swap_word (e : ar9287_eeprom) (f : ar9287_field) : ar9287_eeprom :=
  e.set f (bswap_16 (e f))

/-- `integer = bswap_32(eep->f); eep->f = integer;` -/
def swap_integer (e : ar9287_eeprom) (f : ar9287_field) : ar9287_eeprom :=
  e.set f (bswap_32 (e f))

/-- The body of the endianness branch of `eep_9287_check_eeprom`
(lines 98 to 136), statement by statement. -/
def eep_9287_swap_fields (c : eep_consts) (eep : ar9287_eeprom) :
    ar9287_eeprom :=
  let eep := swap_word eep .length
  let eep := swap_word eep .checksum
  let eep := swap_word eep .version
  let eep := swap_word eep (.regDmn 0)
  let eep := swap_word eep (.regDmn 1)
  let eep := swap_word eep .rfSilent
  let eep := swap_word eep .blueToothOptions
  let eep := swap_word eep .deviceCap
  let eep := swap_integer eep .binBuildNumber
  let eep := swap_integer eep .antCtrlCommon
  let eep := (List.range c.AR9287_MAX_CHAINS).foldl
    (fun e i => swap_integer e (.antCtrlChain i)) eep
  let eep := (List.range c.AR_EEPROM_MODAL_SPURS).foldl
    (fun e i => swap_word e (.spurChan i)) eep
  eep

/-- The condition of the endianness branch:
`!!(eepMisc & AR5416_EEPMISC_BIG_ENDIAN) != aem->host_is_be`. -/
def eep_9287_endian_mismatch (c : eep_consts) (aem : atheepmgr eep_9287_priv) :
    Bool :=
  ((aem.eepmap_priv.eep .eepMisc &&& c.AR5416_EEPMISC_BIG_ENDIAN) != 0)
    != aem.host_is_be

/-- The number of words to checksum, lines 147 to 149:
`el = length / sizeof(uint16_t); if (el > AR9287_DATA_SZ) el = AR9287_DATA_SZ;`. -/
def eep_9287_csum_el (c : eep_consts) (length : Nat) : Nat :=
  let el := length / 2
  if el > c.AR9287_DATA_SZ then c.AR9287_DATA_SZ else el

/-- The indices of `eep_buf` that `eep_calc_csum(&buf[AR9287_DATA_START_LOC],
el)` is handed: `AR9287_DATA_START_LOC + i` for `i < el`. -/
def eep_9287_csum_offsets (c : eep_consts) (el : Nat) : List Nat :=
  (List.range el).map (fun i => c.AR9287_DATA_START_LOC + i)

/-- `eep_9287_check_eeprom`: the status and the context afterwards (the
record is modified in place by the endianness branch).  The checksum helper
`eep_calc_csum` is not part of the sources and is a parameter; its result is
stored in `uint16_t sum`. -/
def eep_9287_check_eeprom (c : eep_consts) (eep_calc_csum : List Nat → Nat)
    (aem : atheepmgr eep_9287_priv) : Bool × atheepmgr eep_9287_priv :=
  let emp := aem.eepmap_priv
  if emp.ini.magic ≠ c.AR5416_EEPROM_MAGIC then
    (false, aem)
  else
    let emp1 : eep_9287_priv :=
      if eep_9287_endian_mismatch c aem then
        { emp with eep := eep_9287_swap_fields c emp.eep }
      else emp
    let aem1 := { aem with eepmap_priv := emp1 }
    if eep_9287_get_ver emp1 ≠ c.AR5416_EEP_VER ∨
        eep_9287_get_rev emp1 < c.AR5416_EEP_NO_BACK_VER then
      (false, aem1)
    else
      let el := eep_9287_csum_el c (emp1.eep .length)
      let offs := eep_9287_csum_offsets c el
      let sum := eep_calc_csum (offs.map (fun a => aem1.eep_buf.getD a 0)) % 65536
      let aem2 := { aem1 with buf_reads := aem1.buf_reads ++ offs }
      if sum ≠ 0xffff then
        (false, aem2)
      else
        (true, aem2)

/-- The read loop of `eep_9287_fill_eeprom` (lines 57 to 62) with `n`
iterations left and the loop variable at `addr`:
`if (!EEP_READ(addr, &buf[addr])) return false;`, where `EEP_READ` is
`hw_eeprom_read` on the context.  The output word is `buf[addr]`, so the
buffer holds what the read left there also when the read fails. -/
def eep_9287_read_loop {P : Type} : Nat → Nat → atheepmgr P → Bool × atheepmgr P
  | 0, _, aem => (true, aem)
  | n + 1, addr, aem =>
    let r := hw_eeprom_read aem addr (aem.eep_buf.getD addr 0)
    let aem1 := { r.2.2 with eep_buf := r.2.2.eep_buf.set addr r.2.1 }
    if !r.1 then
      (false, aem1)
    else
      eep_9287_read_loop n (addr + 1) aem1

/-- A copy loop `for (addr = 0; addr < n; ++addr) dst[addr] = buf[base + addr];`
(lines 66 to 67 and 70 to 71). -/
def eep_9287_copy_loop (n base : Nat) (buf dst : List Nat) : List Nat :=
  (List.range n).foldl (fun d addr => d.set addr (buf.getD (base + addr) 0)) dst

/-- `eep_9287_fill_eeprom`: the status and the context afterwards.  `magic0`
is the indeterminate initial content of the local `uint16_t magic`. -/
def eep_9287_fill_eeprom (c : eep_consts) (aem : atheepmgr eep_9287_words)
    (magic0 : Nat) : Bool × atheepmgr eep_9287_words :=
  let r := hw_eeprom_read aem c.AR5416_EEPROM_MAGIC_OFFSET magic0
  if !r.1 then
    (false, r.2.2)
  else
    let magic := r.2.1
    let aem1 := r.2.2
    let aem2 :=
      if bswap_16 magic = c.AR5416_EEPROM_MAGIC then
        { aem1 with eep_io_swap := !aem1.eep_io_swap }
      else aem1
    let l := eep_9287_read_loop
      (c.AR9287_DATA_START_LOC + c.AR9287_DATA_SZ) 0 aem2
    if !l.1 then
      (false, l.2)
    else
      let aem3 := { l.2 with
        eep_len := c.AR9287_DATA_START_LOC + c.AR9287_DATA_SZ }
      let buf := aem3.eep_buf
      let emp := aem3.eepmap_priv
      let eep_init := eep_9287_copy_loop c.AR9287_DATA_START_LOC 0 buf
        emp.init_data
      let eep_data := eep_9287_copy_loop c.AR9287_DATA_SZ
        c.AR9287_DATA_START_LOC buf emp.eep_data
      (true, { aem3 with
        eepmap_priv := { init_data := eep_init, eep_data := eep_data } })

/-! ## `hw_wait` -/

/-- The largest value of the 32-bit `int` loop counter of `hw_wait`. -/
def INT_MAX : Nat := 2147483647

/-- The loop of `hw_wait` (lines 74 to 79) with the counter at `i` and `rem`
iterations left before `i` reaches `timeout / AH_TIME_QUANTUM` (so `rem = 0`
is the loop test `i < timeout / AH_TIME_QUANTUM` failing).  The result is the
status together with the number of register reads made, or `none` when `i++`
would overflow the `int` counter.  `reg_read reg k` is the result of the
`k`-th `REG_READ(reg)` of the call; the `usleep` between two reads does not
enter the result. -/
def hw_wait_loop (reg_read : Nat → Nat → Nat) (reg mask val : Nat) :
    Nat → Nat → Option (Bool × Nat)
  | 0, i => some (false, i)
  | rem + 1, i =>
    if reg_read reg i &&& mask = val then
      some (true, i + 1)
    else if i + 1 > INT_MAX then
      none
    else
      hw_wait_loop reg_read reg mask val rem (i + 1)

/-- `hw_wait`, with the constant `AH_TIME_QUANTUM` of the absent header as a
parameter: the status and the number of register reads made; `none` when the
division or the counter is undefined. -/
def hw_wait (AH_TIME_QUANTUM : Nat) (reg_read : Nat → Nat → Nat)
    (reg mask val timeout : Nat) : Option (Bool × Nat) :=
  if AH_TIME_QUANTUM = 0 then
    none
  else
    hw_wait_loop reg_read reg mask val (timeout / AH_TIME_QUANTUM) 0

/-- A register that reads as zero except at its `k`-th read, which gives `v`. -/
def reg_read_at (k v : Nat) : Nat → Nat → Nat :=
  fun _ j => if j = k then v else 0

/-- A record is typed when every field value fits the width of its field. -/
def ar9287_eeprom.typed (e : ar9287_eeprom) : Prop :=
  ∀ f : ar9287_field, e f < 256 ^ f.width

/-! ## The checksum helper -/

/-- Rotation of a 16-bit accumulator to the left by `r` bit positions
(`r` taken modulo 16; `r = 0` leaves the accumulator as it is). -/
def rotl16 (r x : Nat) : Nat :=
  ((x <<< (r % 16)) ||| (x >>> (16 - r % 16))) % 65536

/-- The loop of the checksum from a given accumulator: each 16-bit word is
folded into the rotated accumulator by exclusive-or. -/
def eep_calc_csum_from (rot : Nat) : Nat → List Nat → Nat
  | csum, [] => csum
  | csum, w :: buf => eep_calc_csum_from rot (rotl16 rot csum ^^^ (w % 65536)) buf

/-- Modelled from the spec: `eep_calc_csum`, the checksum helper that
`eep_9287_check_eeprom` calls and that is not part of the sources.  The spec
describes it as folding all the 16-bit words "via exclusive-or combined with
a rotating accumulator", an "XOR-based running checksum over 16-bit words".
The per-word rotation `rot` of the accumulator is a parameter; with `rot = 0`
it is the plain exclusive-or of the words. -/
def eep_calc_csum (rot : Nat) (buf : List Nat) : Nat :=
  eep_calc_csum_from rot 0 buf

/-- The word with bit `b` flipped. -/
def flip_bit (w b : Nat) : Nat :=
  w ^^^ 2 ^ b

/-- The region with bit `b` of its word `i` flipped. -/
def flip_region_bit (buf : List Nat) (i b : Nat) : List Nat :=
  buf.set i (flip_bit (buf.getD i 0) b)

/-! ## A small configuration for concrete evaluation -/

/-- Plain exclusive-or of the words of a region, used as the checksum helper
in concrete evaluations. -/
def xor_words (buf : List Nat) : Nat :=
  buf.foldl (fun s w => s ^^^ w) 0

/-- A configuration with the magic, version and flag values of the AR5416
family and a short image: three init words and four calibration words. -/
def consts_small : eep_consts where
  AR5416_EEPROM_MAGIC := 0xa55a
  AR5416_EEPROM_MAGIC_OFFSET := 0
  AR5416_EEP_VER := 0xE
  AR5416_EEP_NO_BACK_VER := 0x1
  AR5416_EEPMISC_BIG_ENDIAN := 0x01
  AR9287_DATA_START_LOC := 3
  AR9287_DATA_SZ := 4
  AR9287_MAX_CHAINS := 2
  AR_EEPROM_MODAL_SPURS := 5

/-- A backend that never succeeds. -/
def con_none : eep_con where
  eep_read := fun _ d => (false, d)
  eep_write := fun _ _ => false

/-- A record with the given length, version and `eepMisc`, zero elsewhere. -/
def eep_small (length version eepMisc : Nat) : ar9287_eeprom :=
  fun f =>
    match f with
    | .length => length
    | .version => version
    | .eepMisc => eepMisc
    | .checksum => 0x1ff6
    | _ => 0

/-- A context for the check: little-endian host, the given magic and record,
and a raw buffer whose four calibration words have checksum `0xFFFF`. -/
def aem_small (magic : Nat) (eep : ar9287_eeprom) : atheepmgr eep_9287_priv where
  con := con_none
  host_is_be := false
  eep_io_swap := false
  eep_buf := [0xa55a, 0, 0, 0x0008, 0x1ff6, 0xe001, 0]
  eep_len := 7
  eepmap_priv := { ini := { magic := magic, prot := 0, iptr := 0, regs := [] },
                   eep := eep }
  con_reads := []
  con_writes := []
  buf_reads := []

/-- A backend holding the given image: reading inside it succeeds with the
stored word, reading past its end fails and leaves the output word alone. -/
def con_image (img : List Nat) : eep_con where
  eep_read := fun a old => if a < img.length then (true, img.getD a 0) else (false, old)
  eep_write := fun _ _ => false

/-- A backend whose reads all succeed, with the word of the given image
(zero past its end). -/
def con_total (img : List Nat) : eep_con where
  eep_read := fun a _ => (true, img.getD a 0)
  eep_write := fun _ _ => false

/-- A fresh context for acquisition in the small configuration: swap state
clear, a zeroed seven-word buffer, zeroed init block and record. -/
def aem_fill (con : eep_con) : atheepmgr eep_9287_words where
  con := con
  host_is_be := false
  eep_io_swap := false
  eep_buf := [0, 0, 0, 0, 0, 0, 0]
  eep_len := 0
  eepmap_priv := { init_data := [0, 0, 0], eep_data := [0, 0, 0, 0] }
  con_reads := []
  con_writes := []
  buf_reads := []

/-! ## Definitions used to state the properties -/

/-- The value of a 16-bit field of the record after the endianness
reconciliation step: byte-reversed when the record's big-endian bit disagrees
with the host byte order, as stored otherwise. -/
def reconciled_word (c : eep_consts) (aem : atheepmgr eep_9287_priv)
    (f : ar9287_field) : Nat :=
  if eep_9287_endian_mismatch c aem then byte_reverse 2 (aem.eepmap_priv.eep f)
  else aem.eepmap_priv.eep f

/-- The record that the version and checksum gates of the check see. -/
def eep_9287_reconciled (c : eep_consts) (aem : atheepmgr eep_9287_priv) :
    eep_9287_priv :=
  if eep_9287_endian_mismatch c aem then
    { aem.eepmap_priv with eep := eep_9287_swap_fields c aem.eepmap_priv.eep }
  else aem.eepmap_priv

/-- One iteration of the read loop: the context after `EEP_READ(addr,
&buf[addr])`. -/
def eep_9287_read_step {P : Type} (aem : atheepmgr P) (addr : Nat) : atheepmgr P :=
  { aem with
    con_reads := aem.con_reads ++ [addr]
    eep_buf := aem.eep_buf.set addr
      (hw_eeprom_read aem addr (aem.eep_buf.getD addr 0)).2.1 }

/-- The context after the magic probe of `eep_9287_fill_eeprom` (lines 49 to
54) when the probe read succeeds. -/
def eep_9287_after_probe (c : eep_consts) (aem : atheepmgr eep_9287_words)
    (magic0 : Nat) : atheepmgr eep_9287_words :=
  if bswap_16 (hw_eeprom_read aem c.AR5416_EEPROM_MAGIC_OFFSET magic0).2.1
      = c.AR5416_EEPROM_MAGIC then
    { aem with
      con_reads := aem.con_reads ++ [c.AR5416_EEPROM_MAGIC_OFFSET]
      eep_io_swap := !aem.eep_io_swap }
  else
    { aem with con_reads := aem.con_reads ++ [c.AR5416_EEPROM_MAGIC_OFFSET] }

/-! ## Auxiliary facts -/

theorem bswap_16_eq_byte_reverse (x : Nat) : bswap_16 x = byte_reverse 2 x := by
  simp [bswap_16, byte_reverse, toBytesLE, ofBytesLE]
  omega

theorem bswap_32_eq_byte_reverse (x : Nat) : bswap_32 x = byte_reverse 4 x := by
  simp [bswap_32, byte_reverse, toBytesLE, ofBytesLE, Nat.div_div_eq_div_mul]
  omega

theorem bswap_16_lt (x : Nat) : bswap_16 x < 65536 := by
  unfold bswap_16
  omega

theorem bswap_16_bswap_16 (x : Nat) (h : x < 65536) : bswap_16 (bswap_16 x) = x := by
  unfold bswap_16
  have h1 : (x % 256 * 256 + x / 256 % 256) % 256 = x / 256 % 256 := by omega
  have h2 : (x % 256 * 256 + x / 256 % 256) / 256 = x % 256 := by omega
  rw [h1, h2]
  omega

theorem shift_mask_ver (x : Nat) : (x >>> 12) &&& 0xF = x / 4096 % 16 := by
  have h := Nat.and_pow_two_sub_one_eq_mod (x >>> 12) 4
  rw [Nat.shiftRight_eq_div_pow] at h
  rw [Nat.shiftRight_eq_div_pow]
  exact h

theorem mask_rev (x : Nat) : x &&& 0xFFF = x % 4096 :=
  Nat.and_pow_two_sub_one_eq_mod x 12

theorem foldl_set_range (F : Nat → ar9287_field) (hF : Function.Injective F)
    (sw : Nat → Nat) (n : Nat) (e : ar9287_eeprom) (g : ar9287_field) :
    ((List.range n).foldl (fun e i => e.set (F i) (sw (e (F i)))) e) g
      = if ∃ i, i < n ∧ g = F i then sw (e g) else e g := by
  induction n generalizing g with
  | zero => simp
  | succ n ih =>
    rw [List.range_succ, List.foldl_append]
    simp only [List.foldl_cons, List.foldl_nil, ar9287_eeprom.set]
    by_cases hg : g = F n
    · subst hg
      have hno : ¬ ∃ i, i < n ∧ F n = F i := by
        rintro ⟨i, hi, he⟩
        have := hF he
        omega
      have hyes : ∃ i, i < n + 1 ∧ F n = F i := ⟨n, by omega, rfl⟩
      rw [if_pos rfl, ih, if_neg hno, if_pos hyes]
    · rw [if_neg hg, ih]
      by_cases hx : ∃ i, i < n ∧ g = F i
      · obtain ⟨i, hi, he⟩ := hx
        rw [if_pos ⟨i, hi, he⟩, if_pos ⟨i, by omega, he⟩]
      · have hx2 : ¬ ∃ i, i < n + 1 ∧ g = F i := by
          rintro ⟨i, hi, he⟩
          by_cases hin : i = n
          · subst hin
            exact hg he
          · exact hx ⟨i, by omega, he⟩
        rw [if_neg hx, if_neg hx2]

/-- What the endianness branch does to each field of the record. -/
theorem eep_9287_swap_fields_apply (c : eep_consts) (e : ar9287_eeprom)
    (f : ar9287_field) :
    eep_9287_swap_fields c e f
      = if f.declared c = true ∧ 1 < f.width then byte_reverse f.width (e f)
        else e f := by
  have hA : Function.Injective ar9287_field.antCtrlChain := by
    intro a b h
    injection h
  have hS : Function.Injective ar9287_field.spurChan := by
    intro a b h
    injection h
  unfold eep_9287_swap_fields
  simp only [swap_word, swap_integer]
  rw [foldl_set_range _ hS, foldl_set_range _ hA]
  cases f <;>
    simp [ar9287_eeprom.set, ar9287_field.declared, ar9287_field.width,
      bswap_16_eq_byte_reverse, bswap_32_eq_byte_reverse]
  rename_i i
  rcases i with _ | _ | i
  · simp
  · simp
  · have h2 : ¬ (i + 1 + 1 < 2) := by omega
    simp [h2]

theorem eep_9287_csum_el_eq_min (c : eep_consts) (length : Nat) :
    eep_9287_csum_el c length = min (length / 2) c.AR9287_DATA_SZ := by
  unfold eep_9287_csum_el
  simp only []
  split_ifs <;> omega

theorem csum_region_eq (c : eep_consts) (buf : List Nat) (el : Nat)
    (h : c.AR9287_DATA_START_LOC + el ≤ buf.length) :
    (eep_9287_csum_offsets c el).map (fun a => buf.getD a 0)
      = (buf.drop c.AR9287_DATA_START_LOC).take el := by
  apply List.ext_getElem
  · simp [eep_9287_csum_offsets]
    omega
  · intro i h1 h2
    simp only [eep_9287_csum_offsets, List.length_map, List.length_range] at h1
    have hb : c.AR9287_DATA_START_LOC + i < buf.length := by omega
    simp [eep_9287_csum_offsets, List.getElem_take, List.getElem_drop,
      List.getElem?_eq_getElem hb]

theorem eep_9287_reconciled_word (c : eep_consts) (aem : atheepmgr eep_9287_priv)
    (f : ar9287_field) (hd : f.declared c = true) (hw : f.width = 2) :
    (eep_9287_reconciled c aem).eep f = reconciled_word c aem f := by
  unfold eep_9287_reconciled reconciled_word
  split_ifs with h
  · show eep_9287_swap_fields c aem.eepmap_priv.eep f = _
    rw [eep_9287_swap_fields_apply, if_pos ⟨hd, by omega⟩, hw]
  · rfl

/-- The status of the check as the conjunction of its three gates. -/
theorem eep_9287_check_eeprom_status (c : eep_consts) (csum : List Nat → Nat)
    (aem : atheepmgr eep_9287_priv) :
    (eep_9287_check_eeprom c csum aem).1 = true ↔
      aem.eepmap_priv.ini.magic = c.AR5416_EEPROM_MAGIC ∧
      reconciled_word c aem .version / 4096 % 16 = c.AR5416_EEP_VER ∧
      c.AR5416_EEP_NO_BACK_VER ≤ reconciled_word c aem .version % 4096 ∧
      csum ((eep_9287_csum_offsets c
          (min (reconciled_word c aem .length / 2) c.AR9287_DATA_SZ)).map
            (fun a => aem.eep_buf.getD a 0)) % 65536 = 0xFFFF := by
  have hv := eep_9287_reconciled_word c aem .version rfl rfl
  have hl := eep_9287_reconciled_word c aem .length rfl rfl
  unfold eep_9287_reconciled at hv hl
  unfold eep_9287_check_eeprom
  simp only [eep_9287_get_ver, eep_9287_get_rev, shift_mask_ver, mask_rev,
    eep_9287_csum_el_eq_min, hv, hl]
  by_cases hm : aem.eepmap_priv.ini.magic ≠ c.AR5416_EEPROM_MAGIC
  · rw [if_pos hm]
    simp only [Bool.false_eq_true, false_iff]
    rintro ⟨h, -⟩
    exact hm h
  · rw [if_neg hm]
    by_cases hg : reconciled_word c aem .version / 4096 % 16 ≠ c.AR5416_EEP_VER ∨
        reconciled_word c aem .version % 4096 < c.AR5416_EEP_NO_BACK_VER
    · rw [if_pos hg]
      simp only [Bool.false_eq_true, false_iff]
      rintro ⟨-, h1, h2, -⟩
      rcases hg with h | h
      · exact h h1
      · omega
    · rw [if_neg hg]
      by_cases hs : csum ((eep_9287_csum_offsets c
          (min (reconciled_word c aem .length / 2) c.AR9287_DATA_SZ)).map
            (fun a => aem.eep_buf.getD a 0)) % 65536 ≠ 0xffff
      · rw [if_pos hs]
        simp only [Bool.false_eq_true, false_iff]
        rintro ⟨-, -, -, h⟩
        exact hs h
      · rw [if_neg hs]
        simp only [true_iff]
        push_neg at hg
        exact ⟨not_not.mp hm, hg.1, hg.2, not_not.mp hs⟩

/-- The record after the check, when the magic gate is passed. -/
theorem eep_9287_check_eeprom_priv (c : eep_consts) (csum : List Nat → Nat)
    (aem : atheepmgr eep_9287_priv)
    (hmagic : aem.eepmap_priv.ini.magic = c.AR5416_EEPROM_MAGIC) :
    (eep_9287_check_eeprom c csum aem).2.eepmap_priv = eep_9287_reconciled c aem := by
  unfold eep_9287_check_eeprom eep_9287_reconciled
  simp only []
  rw [if_neg (not_not.mpr hmagic)]
  split_ifs <;> rfl

/-- The buffer indices the check hands to the checksum. -/
theorem eep_9287_check_eeprom_buf_reads (c : eep_consts) (csum : List Nat → Nat)
    (aem : atheepmgr eep_9287_priv) :
    (eep_9287_check_eeprom c csum aem).2.buf_reads
      = aem.buf_reads ++
        if aem.eepmap_priv.ini.magic = c.AR5416_EEPROM_MAGIC ∧
            reconciled_word c aem .version / 4096 % 16 = c.AR5416_EEP_VER ∧
            c.AR5416_EEP_NO_BACK_VER ≤ reconciled_word c aem .version % 4096
        then eep_9287_csum_offsets c
          (min (reconciled_word c aem .length / 2) c.AR9287_DATA_SZ)
        else [] := by
  have hv := eep_9287_reconciled_word c aem .version rfl rfl
  have hl := eep_9287_reconciled_word c aem .length rfl rfl
  unfold eep_9287_reconciled at hv hl
  unfold eep_9287_check_eeprom
  simp only [eep_9287_get_ver, eep_9287_get_rev, shift_mask_ver, mask_rev,
    eep_9287_csum_el_eq_min, hv, hl]
  by_cases hm : aem.eepmap_priv.ini.magic ≠ c.AR5416_EEPROM_MAGIC
  · have hn : ¬ (aem.eepmap_priv.ini.magic = c.AR5416_EEPROM_MAGIC ∧
        reconciled_word c aem .version / 4096 % 16 = c.AR5416_EEP_VER ∧
        c.AR5416_EEP_NO_BACK_VER ≤ reconciled_word c aem .version % 4096) :=
      fun h => hm h.1
    rw [if_pos hm, if_neg hn]
    simp
  · rw [if_neg hm]
    by_cases hg : reconciled_word c aem .version / 4096 % 16 ≠ c.AR5416_EEP_VER ∨
        reconciled_word c aem .version % 4096 < c.AR5416_EEP_NO_BACK_VER
    · have hn : ¬ (aem.eepmap_priv.ini.magic = c.AR5416_EEPROM_MAGIC ∧
          reconciled_word c aem .version / 4096 % 16 = c.AR5416_EEP_VER ∧
          c.AR5416_EEP_NO_BACK_VER ≤ reconciled_word c aem .version % 4096) := by
        rintro ⟨-, h1, h2⟩
        rcases hg with h | h
        · exact h h1
        · omega
      rw [if_pos hg, if_neg hn]
      simp
    · rw [if_neg hg]
      push_neg at hg
      have hp : aem.eepmap_priv.ini.magic = c.AR5416_EEPROM_MAGIC ∧
          reconciled_word c aem .version / 4096 % 16 = c.AR5416_EEP_VER ∧
          c.AR5416_EEP_NO_BACK_VER ≤ reconciled_word c aem .version % 4096 :=
        ⟨not_not.mp hm, hg.1, hg.2⟩
      by_cases hs : csum ((eep_9287_csum_offsets c
          (min (reconciled_word c aem .length / 2) c.AR9287_DATA_SZ)).map
            (fun a => aem.eep_buf.getD a 0)) % 65536 ≠ 0xffff
      · rw [if_pos hs, if_pos hp]
      · rw [if_neg hs, if_pos hp]

/-- The status of the check, with the checksummed words as a slice of the
buffer. -/
theorem eep_9287_check_eeprom_status_region (c : eep_consts) (csum : List Nat → Nat)
    (aem : atheepmgr eep_9287_priv)
    (hbuf : aem.eep_buf.length = eepmap_9287_eep_buf_sz c) :
    (eep_9287_check_eeprom c csum aem).1 = true ↔
      aem.eepmap_priv.ini.magic = c.AR5416_EEPROM_MAGIC ∧
      reconciled_word c aem .version / 4096 % 16 = c.AR5416_EEP_VER ∧
      c.AR5416_EEP_NO_BACK_VER ≤ reconciled_word c aem .version % 4096 ∧
      csum ((aem.eep_buf.drop c.AR9287_DATA_START_LOC).take
          (min (reconciled_word c aem .length / 2) c.AR9287_DATA_SZ)) % 65536
        = 0xFFFF := by
  rw [eep_9287_check_eeprom_status, csum_region_eq]
  unfold eepmap_9287_eep_buf_sz at hbuf
  omega

/-- C1: `eep_9287_check_eeprom` returns true exactly when the init block's
magic is `AR5416_EEPROM_MAGIC`, the reconciled version field has its top four
bits equal to `AR5416_EEP_VER` and its low twelve bits at least
`AR5416_EEP_NO_BACK_VER`, and the checksum of the first
`min (length / 2) AR9287_DATA_SZ` words of the raw buffer from
`AR9287_DATA_START_LOC` on (length reconciled) is `0xFFFF`. -/
theorem eep_9287_check_eeprom_iff (c : eep_consts) (csum : List Nat → Nat)
    (aem : atheepmgr eep_9287_priv)
    (hbuf : aem.eep_buf.length = eepmap_9287_eep_buf_sz c) :
    (eep_9287_check_eeprom c csum aem).1 = true ↔
      aem.eepmap_priv.ini.magic = c.AR5416_EEPROM_MAGIC ∧
      reconciled_word c aem .version / 4096 % 16 = c.AR5416_EEP_VER ∧
      c.AR5416_EEP_NO_BACK_VER ≤ reconciled_word c aem .version % 4096 ∧
      csum ((aem.eep_buf.drop c.AR9287_DATA_START_LOC).take
          (min (reconciled_word c aem .length / 2) c.AR9287_DATA_SZ)) % 65536
        = 0xFFFF :=
  eep_9287_check_eeprom_status_region c csum aem hbuf

theorem eep_9287_check_eeprom_iff_witness :
    (eep_9287_check_eeprom consts_small xor_words
      (aem_small 0xa55a (eep_small 8 0xe001 0))).1 = true :=
  (eep_9287_check_eeprom_iff consts_small xor_words
    (aem_small 0xa55a (eep_small 8 0xe001 0)) (by decide)).mpr (by decide)

/-- C2: an init block whose magic differs from `AR5416_EEPROM_MAGIC` makes
`eep_9287_check_eeprom` return false, whatever the record, the raw buffer,
the checksum and the host byte order are. -/
theorem eep_9287_check_eeprom_bad_magic (c : eep_consts) (csum : List Nat → Nat)
    (aem : atheepmgr eep_9287_priv)
    (hmagic : aem.eepmap_priv.ini.magic ≠ c.AR5416_EEPROM_MAGIC) :
    (eep_9287_check_eeprom c csum aem).1 = false := by
  rw [Bool.eq_false_iff]
  intro h
  exact hmagic ((eep_9287_check_eeprom_status c csum aem).mp h).1

theorem eep_9287_check_eeprom_bad_magic_witness :
    (eep_9287_check_eeprom consts_small xor_words
        (aem_small 0xa55a (eep_small 8 0xe001 0))).1 = true ∧
    (eep_9287_check_eeprom consts_small xor_words
        (aem_small 0x1234 (eep_small 8 0xe001 0))).1 = false :=
  ⟨by decide,
   eep_9287_check_eeprom_bad_magic consts_small xor_words
    (aem_small 0x1234 (eep_small 8 0xe001 0)) (by decide)⟩

/-- C3: with a valid magic, `eep_9287_check_eeprom` returns false whenever the
major version (top four bits of the reconciled version field) differs from
`AR5416_EEP_VER` or the revision (low twelve bits) is below
`AR5416_EEP_NO_BACK_VER`; and a record with the expected major version and
revision exactly `AR5416_EEP_NO_BACK_VER` passes whenever its checksum is
valid. -/
theorem eep_9287_check_eeprom_version_gate (c : eep_consts)
    (csum : List Nat → Nat) (aem : atheepmgr eep_9287_priv)
    (hbuf : aem.eep_buf.length = eepmap_9287_eep_buf_sz c)
    (hmagic : aem.eepmap_priv.ini.magic = c.AR5416_EEPROM_MAGIC) :
    ((reconciled_word c aem .version / 4096 % 16 ≠ c.AR5416_EEP_VER ∨
        reconciled_word c aem .version % 4096 < c.AR5416_EEP_NO_BACK_VER) →
      (eep_9287_check_eeprom c csum aem).1 = false) ∧
    (reconciled_word c aem .version / 4096 % 16 = c.AR5416_EEP_VER →
      reconciled_word c aem .version % 4096 = c.AR5416_EEP_NO_BACK_VER →
      csum ((aem.eep_buf.drop c.AR9287_DATA_START_LOC).take
          (min (reconciled_word c aem .length / 2) c.AR9287_DATA_SZ)) % 65536
        = 0xFFFF →
      (eep_9287_check_eeprom c csum aem).1 = true) := by
  constructor
  · intro hbad
    rw [Bool.eq_false_iff]
    intro h
    have hs := (eep_9287_check_eeprom_status_region c csum aem hbuf).mp h
    rcases hbad with hv | hr
    · exact hv hs.2.1
    · have := hs.2.2.1
      omega
  · intro hv hr hc
    exact (eep_9287_check_eeprom_status_region c csum aem hbuf).mpr
      ⟨hmagic, hv, by omega, hc⟩

theorem eep_9287_check_eeprom_version_gate_witness :
    (eep_9287_check_eeprom consts_small xor_words
        (aem_small 0xa55a (eep_small 8 0x1001 0))).1 = false ∧
    (eep_9287_check_eeprom consts_small xor_words
        (aem_small 0xa55a (eep_small 8 0xe000 0))).1 = false ∧
    (eep_9287_check_eeprom consts_small xor_words
        (aem_small 0xa55a (eep_small 8 0xe001 0))).1 = true :=
  ⟨(eep_9287_check_eeprom_version_gate consts_small xor_words
      (aem_small 0xa55a (eep_small 8 0x1001 0)) (by decide) (by decide)).1
      (by decide),
   (eep_9287_check_eeprom_version_gate consts_small xor_words
      (aem_small 0xa55a (eep_small 8 0xe000 0)) (by decide) (by decide)).1
      (by decide),
   (eep_9287_check_eeprom_version_gate consts_small xor_words
      (aem_small 0xa55a (eep_small 8 0xe001 0)) (by decide) (by decide)).2
      (by decide) (by decide) (by decide)⟩

/-- C9: the number of words the check checksums is
`min (length / 2) AR9287_DATA_SZ`, every buffer index handed to the checksum
lies in `[AR9287_DATA_START_LOC, AR9287_DATA_START_LOC + AR9287_DATA_SZ)`,
inside the `eep_buf_sz`-word buffer, and with an over-long declared length the
check still passes exactly when the magic and version gates pass and the
checksum of the whole `AR9287_DATA_SZ`-word region is `0xFFFF`. -/
theorem eep_9287_check_eeprom_length_clamp (c : eep_consts)
    (csum : List Nat → Nat) (aem : atheepmgr eep_9287_priv)
    (hbuf : aem.eep_buf.length = eepmap_9287_eep_buf_sz c) :
    (∀ length, eep_9287_csum_el c length = min (length / 2) c.AR9287_DATA_SZ) ∧
    (∃ reads, (eep_9287_check_eeprom c csum aem).2.buf_reads
        = aem.buf_reads ++ reads ∧
      (reads = [] ∨ reads = (List.range
          (min (reconciled_word c aem .length / 2) c.AR9287_DATA_SZ)).map
            (fun i => c.AR9287_DATA_START_LOC + i)) ∧
      ∀ a, a ∈ reads → c.AR9287_DATA_START_LOC ≤ a ∧
        a < c.AR9287_DATA_START_LOC + c.AR9287_DATA_SZ ∧
        a < aem.eep_buf.length) ∧
    ((aem.eepmap_priv.ini.magic = c.AR5416_EEPROM_MAGIC ∧
        reconciled_word c aem .version / 4096 % 16 = c.AR5416_EEP_VER ∧
        c.AR5416_EEP_NO_BACK_VER ≤ reconciled_word c aem .version % 4096) →
      (eep_9287_check_eeprom c csum aem).2.buf_reads
        = aem.buf_reads ++ (List.range
          (min (reconciled_word c aem .length / 2) c.AR9287_DATA_SZ)).map
            (fun i => c.AR9287_DATA_START_LOC + i)) ∧
    (c.AR9287_DATA_SZ < reconciled_word c aem .length / 2 →
      ((eep_9287_check_eeprom c csum aem).1 = true ↔
        aem.eepmap_priv.ini.magic = c.AR5416_EEPROM_MAGIC ∧
        reconciled_word c aem .version / 4096 % 16 = c.AR5416_EEP_VER ∧
        c.AR5416_EEP_NO_BACK_VER ≤ reconciled_word c aem .version % 4096 ∧
        csum ((aem.eep_buf.drop c.AR9287_DATA_START_LOC).take
          c.AR9287_DATA_SZ) % 65536 = 0xFFFF)) := by
  have hmem : ∀ a, a ∈ eep_9287_csum_offsets c
        (min (reconciled_word c aem .length / 2) c.AR9287_DATA_SZ) →
      c.AR9287_DATA_START_LOC ≤ a ∧
        a < c.AR9287_DATA_START_LOC + c.AR9287_DATA_SZ ∧
        a < aem.eep_buf.length := by
    intro a ha
    unfold eepmap_9287_eep_buf_sz at hbuf
    simp only [eep_9287_csum_offsets, List.mem_map, List.mem_range] at ha
    obtain ⟨i, hi, rfl⟩ := ha
    omega
  refine ⟨eep_9287_csum_el_eq_min c, ?_, ?_, ?_⟩
  · rw [eep_9287_check_eeprom_buf_reads]
    split_ifs with h
    · exact ⟨_, rfl, Or.inr rfl, hmem⟩
    · exact ⟨[], rfl, Or.inl rfl, by simp⟩
  · intro h
    rw [eep_9287_check_eeprom_buf_reads, if_pos h]
    rfl
  · intro hlong
    rw [eep_9287_check_eeprom_status_region c csum aem hbuf, Nat.min_eq_right (by omega)]

theorem eep_9287_check_eeprom_length_clamp_witness :
    (eep_9287_check_eeprom consts_small xor_words
        (aem_small 0xa55a (eep_small 0xffff 0xe001 0))).1 = true ∧
    (eep_9287_check_eeprom consts_small xor_words
        (aem_small 0xa55a (eep_small 0xffff 0xe001 0))).2.buf_reads
      = [3, 4, 5, 6] :=
  ⟨((eep_9287_check_eeprom_length_clamp consts_small xor_words
      (aem_small 0xa55a (eep_small 0xffff 0xe001 0)) (by decide)).2.2.2
        (by decide)).mpr (by decide),
   (eep_9287_check_eeprom_length_clamp consts_small xor_words
      (aem_small 0xa55a (eep_small 0xffff 0xe001 0)) (by decide)).2.2.1
        (by decide)⟩

/-- C10: `hw_eeprom_read` makes exactly one backend read, succeeds exactly
when that read succeeds, gives the backend's word unchanged when the swap
state is clear and byte-reversed when it is set, and on failure leaves the
output word as the backend left it; `hw_eeprom_write` hands the backend the
word unchanged when the swap state is clear and byte-reversed when set, makes
exactly one backend write and succeeds exactly when that write succeeds.
Neither changes the swap state nor anything else of the context. -/
theorem hw_eeprom_read_write_spec {P : Type} (aem : atheepmgr P)
    (off data : Nat) :
    ((hw_eeprom_read aem off data).2.2
        = { aem with con_reads := aem.con_reads ++ [off] } ∧
      (hw_eeprom_read aem off data).1 = (aem.con.eep_read off data).1 ∧
      ((aem.con.eep_read off data).1 = true →
        (hw_eeprom_read aem off data).2.1
          = if aem.eep_io_swap then byte_reverse 2 (aem.con.eep_read off data).2
            else (aem.con.eep_read off data).2) ∧
      ((aem.con.eep_read off data).1 = false →
        (hw_eeprom_read aem off data).2.1 = (aem.con.eep_read off data).2) ∧
      (hw_eeprom_read aem off data).2.2.eep_io_swap = aem.eep_io_swap) ∧
    ((hw_eeprom_write aem off data).2
        = { aem with con_writes := aem.con_writes ++
              [(off, if aem.eep_io_swap then byte_reverse 2 data else data)] } ∧
      (hw_eeprom_write aem off data).1
        = aem.con.eep_write off
            (if aem.eep_io_swap then byte_reverse 2 data else data) ∧
      (hw_eeprom_write aem off data).2.eep_io_swap = aem.eep_io_swap) := by
  unfold hw_eeprom_read hw_eeprom_write
  simp only [← bswap_16_eq_byte_reverse]
  refine ⟨⟨?_, ?_, ?_, ?_, ?_⟩, ?_, ?_, ?_⟩
  · cases h : (aem.con.eep_read off data).1 <;> simp
  · cases h : (aem.con.eep_read off data).1 <;> simp
  · intro h
    simp [h]
  · intro h
    simp [h]
  · cases h : (aem.con.eep_read off data).1 <;> simp
  · cases h : aem.con.eep_write off
      (if aem.eep_io_swap then bswap_16 data else data) <;> simp
  · cases h : aem.con.eep_write off
      (if aem.eep_io_swap then bswap_16 data else data) <;> simp
  · cases h : aem.con.eep_write off
      (if aem.eep_io_swap then bswap_16 data else data) <;> simp

theorem hw_eeprom_read_write_spec_witness :
    (hw_eeprom_read { aem_fill (con_total [0x1234]) with eep_io_swap := true } 0 0).2.1
      = 0x3412 ∧
    (hw_eeprom_read (aem_fill con_none) 0 0x77).2.1 = 0x77 :=
  ⟨((hw_eeprom_read_write_spec
      { aem_fill (con_total [0x1234]) with eep_io_swap := true } 0 0).1.2.2.1
        rfl).trans (by decide),
   (hw_eeprom_read_write_spec (aem_fill con_none) 0 0x77).1.2.2.2.1 rfl⟩

/-! ## Acquisition -/

theorem hw_eeprom_read_ctx {P : Type} (aem : atheepmgr P) (off data : Nat) :
    (hw_eeprom_read aem off data).2.2
      = { aem with con_reads := aem.con_reads ++ [off] } := by
  unfold hw_eeprom_read
  cases h : (aem.con.eep_read off data).1 <;> simp [h]

theorem hw_eeprom_read_status {P : Type} (aem : atheepmgr P) (off data : Nat) :
    (hw_eeprom_read aem off data).1 = (aem.con.eep_read off data).1 := by
  unfold hw_eeprom_read
  cases h : (aem.con.eep_read off data).1 <;> simp [h]

theorem hw_eeprom_read_data {P : Type} (aem : atheepmgr P) (off data : Nat)
    (hok : (aem.con.eep_read off data).1 = true) :
    (hw_eeprom_read aem off data).2.1
      = if aem.eep_io_swap then bswap_16 (aem.con.eep_read off data).2
        else (aem.con.eep_read off data).2 := by
  unfold hw_eeprom_read
  simp [hok]

theorem getD_set_eq (l : List Nat) (i a v : Nat) :
    (l.set i v).getD a 0 = if a = i ∧ i < l.length then v else l.getD a 0 := by
  simp only [List.getD_eq_getElem?_getD, List.getElem?_set]
  by_cases h : i = a
  · subst h
    by_cases hl : i < l.length
    · simp [hl]
    · have hn : l[i]? = none := List.getElem?_eq_none (by omega)
      simp [hl, hn]
  · have h2 : ¬ a = i := fun e => h e.symm
    simp [h, h2]

theorem eep_9287_read_loop_succ {P : Type} (n addr : Nat) (aem : atheepmgr P) :
    eep_9287_read_loop (n + 1) addr aem
      = if (aem.con.eep_read addr (aem.eep_buf.getD addr 0)).1 = true then
          eep_9287_read_loop n (addr + 1) (eep_9287_read_step aem addr)
        else (false, eep_9287_read_step aem addr) := by
  rw [eep_9287_read_loop]
  simp only [hw_eeprom_read_ctx, hw_eeprom_read_status, eep_9287_read_step]
  cases h : (aem.con.eep_read addr (aem.eep_buf.getD addr 0)).1 <;> simp [h]

/-- What the read loop never changes. -/
theorem eep_9287_read_loop_frame {P : Type} (n addr : Nat) (aem : atheepmgr P) :
    (eep_9287_read_loop n addr aem).2.con = aem.con ∧
    (eep_9287_read_loop n addr aem).2.eep_io_swap = aem.eep_io_swap ∧
    (eep_9287_read_loop n addr aem).2.eep_len = aem.eep_len ∧
    (eep_9287_read_loop n addr aem).2.eepmap_priv = aem.eepmap_priv ∧
    (eep_9287_read_loop n addr aem).2.eep_buf.length = aem.eep_buf.length := by
  induction n generalizing addr aem with
  | zero => simp [eep_9287_read_loop]
  | succ n ih =>
    rw [eep_9287_read_loop_succ]
    split_ifs with h
    · have := ih (addr + 1) (eep_9287_read_step aem addr)
      simpa [eep_9287_read_step] using this
    · simp [eep_9287_read_step]

/-- The read loop on a backend whose reads succeed on the whole range. -/
theorem eep_9287_read_loop_ok {P : Type} (n addr : Nat) (aem : atheepmgr P)
    (hok : ∀ a, addr ≤ a → a < addr + n → ∀ old, (aem.con.eep_read a old).1 = true) :
    (eep_9287_read_loop n addr aem).1 = true ∧
    (eep_9287_read_loop n addr aem).2.con_reads
      = aem.con_reads ++ List.range' addr n ∧
    ∀ a, (eep_9287_read_loop n addr aem).2.eep_buf.getD a 0
      = if addr ≤ a ∧ a < addr + n ∧ a < aem.eep_buf.length then
          (if aem.eep_io_swap then
            bswap_16 (aem.con.eep_read a (aem.eep_buf.getD a 0)).2
           else (aem.con.eep_read a (aem.eep_buf.getD a 0)).2)
        else aem.eep_buf.getD a 0 := by
  induction n generalizing addr aem with
  | zero =>
    refine ⟨rfl, by simp [eep_9287_read_loop], ?_⟩
    intro a
    rw [if_neg (by omega)]
    rfl
  | succ n ih =>
    have h0 := hok addr (le_refl _) (by omega) (aem.eep_buf.getD addr 0)
    rw [eep_9287_read_loop_succ, if_pos h0]
    have hok1 : ∀ a, addr + 1 ≤ a → a < addr + 1 + n → ∀ old,
        ((eep_9287_read_step aem addr).con.eep_read a old).1 = true := by
      intro a h1 h2 old
      exact hok a (by omega) (by omega) old
    obtain ⟨i1, i2, i3⟩ := ih (addr + 1) (eep_9287_read_step aem addr) hok1
    refine ⟨i1, ?_, ?_⟩
    · rw [i2]
      simp [eep_9287_read_step, List.range'_succ]
    · intro a
      rw [i3]
      simp only [eep_9287_read_step, List.length_set, getD_set_eq,
        hw_eeprom_read_data _ _ _ h0]
      by_cases ha : a = addr
      · subst ha
        have c1 : ¬ (a + 1 ≤ a ∧ a < a + 1 + n ∧ a < aem.eep_buf.length) := by omega
        simp only [if_neg c1]
        by_cases hl : a < aem.eep_buf.length
        · simp [hl]
        · simp [hl]
      · have hne : ¬ (a = addr ∧ addr < aem.eep_buf.length) := fun h => ha h.1
        simp only [if_neg hne]
        by_cases hr : addr + 1 ≤ a ∧ a < addr + 1 + n ∧ a < aem.eep_buf.length
        · have c3 : addr ≤ a ∧ a < addr + (n + 1) ∧ a < aem.eep_buf.length :=
            ⟨by omega, by omega, hr.2.2⟩
          simp only [if_pos hr, if_pos c3]
        · have c3 : ¬ (addr ≤ a ∧ a < addr + (n + 1) ∧ a < aem.eep_buf.length) :=
            fun h => hr ⟨by omega, by omega, h.2.2⟩
          simp only [if_neg hr, if_neg c3]

/-- The read loop on a backend whose first failing offset is `k`. -/
theorem eep_9287_read_loop_fail {P : Type} (n addr k : Nat) (aem : atheepmgr P)
    (hk1 : addr ≤ k) (hk2 : k < addr + n)
    (hok : ∀ a, addr ≤ a → a < k → ∀ old, (aem.con.eep_read a old).1 = true)
    (hfail : ∀ old, (aem.con.eep_read k old).1 = false) :
    (eep_9287_read_loop n addr aem).1 = false ∧
    (eep_9287_read_loop n addr aem).2.con_reads
      = aem.con_reads ++ List.range' addr (k + 1 - addr) ∧
    (eep_9287_read_loop n addr aem).2.eep_io_swap = aem.eep_io_swap ∧
    (eep_9287_read_loop n addr aem).2.eep_len = aem.eep_len ∧
    (eep_9287_read_loop n addr aem).2.eepmap_priv = aem.eepmap_priv := by
  induction n generalizing addr aem with
  | zero => omega
  | succ n ih =>
    rw [eep_9287_read_loop_succ]
    by_cases hak : addr = k
    · subst hak
      have hf := hfail (aem.eep_buf.getD addr 0)
      rw [if_neg (by rw [hf]; exact Bool.false_ne_true)]
      have : addr + 1 - addr = 1 := by omega
      simp [eep_9287_read_step, this]
    · have h0 := hok addr (le_refl _) (by omega) (aem.eep_buf.getD addr 0)
      rw [if_pos h0]
      have hok1 : ∀ a, addr + 1 ≤ a → a < k → ∀ old,
          ((eep_9287_read_step aem addr).con.eep_read a old).1 = true := by
        intro a h1 h2 old
        exact hok a (by omega) h2 old
      obtain ⟨i1, i2, i3, i4, i5⟩ :=
        ih (addr + 1) (eep_9287_read_step aem addr) (by omega) (by omega) hok1 hfail
      refine ⟨i1, ?_, i3, i4, i5⟩
      rw [i2]
      have : k + 1 - addr = (k + 1 - (addr + 1)) + 1 := by omega
      rw [this, List.range'_succ]
      simp [eep_9287_read_step]

/-- A copy loop into a destination of `n` words copies the `n` buffer words
from `base` on. -/
theorem eep_9287_copy_loop_eq (n base : Nat) (buf dst : List Nat)
    (hdst : dst.length = n) (hbuf : base + n ≤ buf.length) :
    eep_9287_copy_loop n base buf dst = (buf.drop base).take n := by
  have key : ∀ m, m ≤ n →
      ((List.range m).foldl (fun d addr => d.set addr (buf.getD (base + addr) 0)) dst).length = n ∧
      ∀ a, ((List.range m).foldl
          (fun d addr => d.set addr (buf.getD (base + addr) 0)) dst).getD a 0
        = if a < m then buf.getD (base + a) 0 else dst.getD a 0 := by
    intro m
    induction m with
    | zero =>
      intro _
      simp [hdst]
    | succ m ih =>
      intro hm
      obtain ⟨l1, l2⟩ := ih (by omega)
      rw [List.range_succ, List.foldl_append]
      simp only [List.foldl_cons, List.foldl_nil, List.length_set]
      refine ⟨l1, ?_⟩
      intro a
      rw [getD_set_eq, l1, l2]
      by_cases ha : a = m
      · subst ha
        rw [if_pos ⟨rfl, by omega⟩, if_pos (by omega)]
      · rw [if_neg (fun h => ha h.1)]
        by_cases hlt : a < m
        · rw [if_pos hlt, if_pos (by omega)]
        · rw [if_neg hlt, if_neg (by omega)]
  obtain ⟨k1, k2⟩ := key n (le_refl _)
  unfold eep_9287_copy_loop
  apply List.ext_getElem
  · rw [k1]
    simp
    omega
  · intro i h1 h2
    have hi : i < n := by omega
    have := k2 i
    rw [if_pos hi, List.getD_eq_getElem _ _ h1,
      List.getD_eq_getElem _ _ (by omega)] at this
    rw [this]
    simp [List.getElem_take, List.getElem_drop]

theorem eep_9287_fill_eeprom_probe_fail (c : eep_consts)
    (aem : atheepmgr eep_9287_words) (magic0 : Nat)
    (h : (aem.con.eep_read c.AR5416_EEPROM_MAGIC_OFFSET magic0).1 = false) :
    eep_9287_fill_eeprom c aem magic0
      = (false, { aem with
          con_reads := aem.con_reads ++ [c.AR5416_EEPROM_MAGIC_OFFSET] }) := by
  unfold eep_9287_fill_eeprom
  simp only [hw_eeprom_read_status, hw_eeprom_read_ctx, h]
  rfl

theorem eep_9287_fill_eeprom_probe_ok (c : eep_consts)
    (aem : atheepmgr eep_9287_words) (magic0 : Nat)
    (h : (aem.con.eep_read c.AR5416_EEPROM_MAGIC_OFFSET magic0).1 = true) :
    eep_9287_fill_eeprom c aem magic0
      = if (eep_9287_read_loop (c.AR9287_DATA_START_LOC + c.AR9287_DATA_SZ) 0
            (eep_9287_after_probe c aem magic0)).1 = true then
          (true, { (eep_9287_read_loop (c.AR9287_DATA_START_LOC + c.AR9287_DATA_SZ) 0
              (eep_9287_after_probe c aem magic0)).2 with
            eep_len := c.AR9287_DATA_START_LOC + c.AR9287_DATA_SZ
            eepmap_priv := {
              init_data := eep_9287_copy_loop c.AR9287_DATA_START_LOC 0
                (eep_9287_read_loop (c.AR9287_DATA_START_LOC + c.AR9287_DATA_SZ) 0
                  (eep_9287_after_probe c aem magic0)).2.eep_buf
                (eep_9287_read_loop (c.AR9287_DATA_START_LOC + c.AR9287_DATA_SZ) 0
                  (eep_9287_after_probe c aem magic0)).2.eepmap_priv.init_data
              eep_data := eep_9287_copy_loop c.AR9287_DATA_SZ
                c.AR9287_DATA_START_LOC
                (eep_9287_read_loop (c.AR9287_DATA_START_LOC + c.AR9287_DATA_SZ) 0
                  (eep_9287_after_probe c aem magic0)).2.eep_buf
                (eep_9287_read_loop (c.AR9287_DATA_START_LOC + c.AR9287_DATA_SZ) 0
                  (eep_9287_after_probe c aem magic0)).2.eepmap_priv.eep_data } })
        else
          (false, (eep_9287_read_loop (c.AR9287_DATA_START_LOC + c.AR9287_DATA_SZ) 0
            (eep_9287_after_probe c aem magic0)).2) := by
  have hap : eep_9287_after_probe c aem magic0
      = if bswap_16 (hw_eeprom_read aem c.AR5416_EEPROM_MAGIC_OFFSET magic0).2.1
          = c.AR5416_EEPROM_MAGIC then
        { (hw_eeprom_read aem c.AR5416_EEPROM_MAGIC_OFFSET magic0).2.2 with
          eep_io_swap :=
            !(hw_eeprom_read aem c.AR5416_EEPROM_MAGIC_OFFSET magic0).2.2.eep_io_swap }
        else (hw_eeprom_read aem c.AR5416_EEPROM_MAGIC_OFFSET magic0).2.2 := by
    unfold eep_9287_after_probe
    rw [hw_eeprom_read_ctx]
  unfold eep_9287_fill_eeprom
  simp only []
  rw [← hap, hw_eeprom_read_status, h]
  cases hl : (eep_9287_read_loop (c.AR9287_DATA_START_LOC + c.AR9287_DATA_SZ) 0
      (eep_9287_after_probe c aem magic0)).1 <;> simp

theorem eep_9287_after_probe_frame (c : eep_consts)
    (aem : atheepmgr eep_9287_words) (magic0 : Nat) :
    (eep_9287_after_probe c aem magic0).con = aem.con ∧
    (eep_9287_after_probe c aem magic0).eep_buf = aem.eep_buf ∧
    (eep_9287_after_probe c aem magic0).eepmap_priv = aem.eepmap_priv ∧
    (eep_9287_after_probe c aem magic0).eep_len = aem.eep_len ∧
    (eep_9287_after_probe c aem magic0).con_reads
      = aem.con_reads ++ [c.AR5416_EEPROM_MAGIC_OFFSET] ∧
    (eep_9287_after_probe c aem magic0).eep_io_swap
      = (if bswap_16 (hw_eeprom_read aem c.AR5416_EEPROM_MAGIC_OFFSET magic0).2.1
            = c.AR5416_EEPROM_MAGIC then !aem.eep_io_swap
         else aem.eep_io_swap) := by
  unfold eep_9287_after_probe
  split_ifs <;> simp

/-- The parts of the result of a successful acquisition. -/
theorem eep_9287_fill_eeprom_loop_ok (c : eep_consts)
    (aem : atheepmgr eep_9287_words) (magic0 : Nat)
    (h : (aem.con.eep_read c.AR5416_EEPROM_MAGIC_OFFSET magic0).1 = true)
    (hl : (eep_9287_read_loop (c.AR9287_DATA_START_LOC + c.AR9287_DATA_SZ) 0
      (eep_9287_after_probe c aem magic0)).1 = true) :
    (eep_9287_fill_eeprom c aem magic0).1 = true ∧
    (eep_9287_fill_eeprom c aem magic0).2.con_reads
      = (eep_9287_read_loop (c.AR9287_DATA_START_LOC + c.AR9287_DATA_SZ) 0
          (eep_9287_after_probe c aem magic0)).2.con_reads ∧
    (eep_9287_fill_eeprom c aem magic0).2.eep_io_swap
      = (eep_9287_read_loop (c.AR9287_DATA_START_LOC + c.AR9287_DATA_SZ) 0
          (eep_9287_after_probe c aem magic0)).2.eep_io_swap ∧
    (eep_9287_fill_eeprom c aem magic0).2.eep_buf
      = (eep_9287_read_loop (c.AR9287_DATA_START_LOC + c.AR9287_DATA_SZ) 0
          (eep_9287_after_probe c aem magic0)).2.eep_buf ∧
    (eep_9287_fill_eeprom c aem magic0).2.eep_len
      = c.AR9287_DATA_START_LOC + c.AR9287_DATA_SZ ∧
    (eep_9287_fill_eeprom c aem magic0).2.eepmap_priv.init_data
      = eep_9287_copy_loop c.AR9287_DATA_START_LOC 0
          (eep_9287_read_loop (c.AR9287_DATA_START_LOC + c.AR9287_DATA_SZ) 0
            (eep_9287_after_probe c aem magic0)).2.eep_buf
          (eep_9287_read_loop (c.AR9287_DATA_START_LOC + c.AR9287_DATA_SZ) 0
            (eep_9287_after_probe c aem magic0)).2.eepmap_priv.init_data ∧
    (eep_9287_fill_eeprom c aem magic0).2.eepmap_priv.eep_data
      = eep_9287_copy_loop c.AR9287_DATA_SZ c.AR9287_DATA_START_LOC
          (eep_9287_read_loop (c.AR9287_DATA_START_LOC + c.AR9287_DATA_SZ) 0
            (eep_9287_after_probe c aem magic0)).2.eep_buf
          (eep_9287_read_loop (c.AR9287_DATA_START_LOC + c.AR9287_DATA_SZ) 0
            (eep_9287_after_probe c aem magic0)).2.eepmap_priv.eep_data := by
  rw [eep_9287_fill_eeprom_probe_ok c aem magic0 h, if_pos hl]
  exact ⟨rfl, rfl, rfl, rfl, rfl, rfl, rfl⟩

theorem eep_9287_fill_eeprom_loop_fail (c : eep_consts)
    (aem : atheepmgr eep_9287_words) (magic0 : Nat)
    (h : (aem.con.eep_read c.AR5416_EEPROM_MAGIC_OFFSET magic0).1 = true)
    (hl : (eep_9287_read_loop (c.AR9287_DATA_START_LOC + c.AR9287_DATA_SZ) 0
      (eep_9287_after_probe c aem magic0)).1 = false) :
    eep_9287_fill_eeprom c aem magic0
      = (false, (eep_9287_read_loop (c.AR9287_DATA_START_LOC + c.AR9287_DATA_SZ) 0
          (eep_9287_after_probe c aem magic0)).2) := by
  rw [eep_9287_fill_eeprom_probe_ok c aem magic0 h, if_neg (by rw [hl]; exact Bool.false_ne_true)]

/-- The successful acquisition on a backend whose reads all succeed: status,
reads, swap state and buffer contents. -/
theorem eep_9287_fill_eeprom_all_ok (c : eep_consts)
    (aem : atheepmgr eep_9287_words) (magic0 : Nat)
    (hok : ∀ a old, (aem.con.eep_read a old).1 = true) :
    (eep_9287_fill_eeprom c aem magic0).1 = true ∧
    (eep_9287_fill_eeprom c aem magic0).2.con_reads
      = aem.con_reads ++ c.AR5416_EEPROM_MAGIC_OFFSET ::
          List.range (c.AR9287_DATA_START_LOC + c.AR9287_DATA_SZ) ∧
    (eep_9287_fill_eeprom c aem magic0).2.eep_len
      = c.AR9287_DATA_START_LOC + c.AR9287_DATA_SZ ∧
    (eep_9287_fill_eeprom c aem magic0).2.eep_buf.length = aem.eep_buf.length ∧
    (eep_9287_fill_eeprom c aem magic0).2.eep_io_swap
      = (eep_9287_after_probe c aem magic0).eep_io_swap ∧
    (∀ a, a < c.AR9287_DATA_START_LOC + c.AR9287_DATA_SZ → a < aem.eep_buf.length →
      (eep_9287_fill_eeprom c aem magic0).2.eep_buf.getD a 0
        = if (eep_9287_after_probe c aem magic0).eep_io_swap then
            bswap_16 (aem.con.eep_read a (aem.eep_buf.getD a 0)).2
          else (aem.con.eep_read a (aem.eep_buf.getD a 0)).2) := by
  obtain ⟨f1, f2, f3, f4, f5, f6⟩ := eep_9287_after_probe_frame c aem magic0
  have hok1 : ∀ a, 0 ≤ a → a < 0 + (c.AR9287_DATA_START_LOC + c.AR9287_DATA_SZ) →
      ∀ old, ((eep_9287_after_probe c aem magic0).con.eep_read a old).1 = true := by
    intro a _ _ old
    rw [f1]
    exact hok a old
  obtain ⟨l1, l2, l3⟩ := eep_9287_read_loop_ok _ 0 _ hok1
  obtain ⟨g1, g2, g3, g4, g5⟩ := eep_9287_read_loop_frame
    (c.AR9287_DATA_START_LOC + c.AR9287_DATA_SZ) 0 (eep_9287_after_probe c aem magic0)
  obtain ⟨r1, r2, r3, r4, r5, -, -⟩ :=
    eep_9287_fill_eeprom_loop_ok c aem magic0 (hok _ _) l1
  refine ⟨r1, ?_, r5, ?_, ?_, ?_⟩
  · rw [r2, l2, f5, List.range_eq_range']
    simp
  · rw [r4, g5, f2]
  · rw [r3, g2]
  · intro a ha hlen
    rw [r4, l3, f1, f2, if_pos ⟨Nat.zero_le _, by omega, hlen⟩]

/-- C8: on a backend whose reads all succeed, `eep_9287_fill_eeprom` returns
true, reads (after the magic probe) the offsets `0, 1, ...,
AR9287_DATA_START_LOC + AR9287_DATA_SZ - 1` in increasing order, sets
`eep_len` to `eep_buf_sz`, and leaves word `i` of the init block equal to
buffer word `i` and word `j` of the calibration record equal to buffer word
`AR9287_DATA_START_LOC + j`; the two regions are the two contiguous slices of
the buffer and their concatenation is the buffer. -/
theorem eep_9287_fill_eeprom_success (c : eep_consts)
    (aem : atheepmgr eep_9287_words) (magic0 : Nat)
    (hok : ∀ a old, (aem.con.eep_read a old).1 = true)
    (hbuf : aem.eep_buf.length = eepmap_9287_eep_buf_sz c)
    (hini : aem.eepmap_priv.init_data.length = c.AR9287_DATA_START_LOC)
    (heep : aem.eepmap_priv.eep_data.length = c.AR9287_DATA_SZ) :
    (eep_9287_fill_eeprom c aem magic0).1 = true ∧
    (eep_9287_fill_eeprom c aem magic0).2.con_reads
      = aem.con_reads ++ c.AR5416_EEPROM_MAGIC_OFFSET ::
          List.range (c.AR9287_DATA_START_LOC + c.AR9287_DATA_SZ) ∧
    (eep_9287_fill_eeprom c aem magic0).2.eep_len = eepmap_9287_eep_buf_sz c ∧
    (eep_9287_fill_eeprom c aem magic0).2.eep_buf.length
      = eepmap_9287_eep_buf_sz c ∧
    (∀ i, i < c.AR9287_DATA_START_LOC →
      (eep_9287_fill_eeprom c aem magic0).2.eepmap_priv.init_data[i]?
        = (eep_9287_fill_eeprom c aem magic0).2.eep_buf[i]?) ∧
    (∀ j, j < c.AR9287_DATA_SZ →
      (eep_9287_fill_eeprom c aem magic0).2.eepmap_priv.eep_data[j]?
        = (eep_9287_fill_eeprom c aem magic0).2.eep_buf[c.AR9287_DATA_START_LOC + j]?) ∧
    (eep_9287_fill_eeprom c aem magic0).2.eepmap_priv.init_data.length
      = c.AR9287_DATA_START_LOC ∧
    (eep_9287_fill_eeprom c aem magic0).2.eepmap_priv.eep_data.length
      = c.AR9287_DATA_SZ ∧
    (eep_9287_fill_eeprom c aem magic0).2.eepmap_priv.init_data
        ++ (eep_9287_fill_eeprom c aem magic0).2.eepmap_priv.eep_data
      = (eep_9287_fill_eeprom c aem magic0).2.eep_buf := by
  unfold eepmap_9287_eep_buf_sz at *
  obtain ⟨f1, f2, f3, f4, f5, f6⟩ := eep_9287_after_probe_frame c aem magic0
  have hok1 : ∀ a, 0 ≤ a → a < 0 + (c.AR9287_DATA_START_LOC + c.AR9287_DATA_SZ) →
      ∀ old, ((eep_9287_after_probe c aem magic0).con.eep_read a old).1 = true := by
    intro a _ _ old
    rw [f1]
    exact hok a old
  obtain ⟨l1, -, -⟩ := eep_9287_read_loop_ok _ 0 _ hok1
  obtain ⟨g1, g2, g3, g4, g5⟩ := eep_9287_read_loop_frame
    (c.AR9287_DATA_START_LOC + c.AR9287_DATA_SZ) 0 (eep_9287_after_probe c aem magic0)
  obtain ⟨-, -, -, r4, -, r6, r7⟩ :=
    eep_9287_fill_eeprom_loop_ok c aem magic0 (hok _ _) l1
  obtain ⟨a1, a2, a3, a4, -, -⟩ := eep_9287_fill_eeprom_all_ok c aem magic0 hok
  have hlen : (eep_9287_fill_eeprom c aem magic0).2.eep_buf.length
      = c.AR9287_DATA_START_LOC + c.AR9287_DATA_SZ := by rw [a4, hbuf]
  have hi : (eep_9287_fill_eeprom c aem magic0).2.eepmap_priv.init_data
      = (eep_9287_fill_eeprom c aem magic0).2.eep_buf.take c.AR9287_DATA_START_LOC := by
    rw [r6, eep_9287_copy_loop_eq _ _ _ _ (by rw [g4, f3, hini])
      (by rw [g5, f2, hbuf]; omega), ← r4, List.drop_zero]
  have he : (eep_9287_fill_eeprom c aem magic0).2.eepmap_priv.eep_data
      = (eep_9287_fill_eeprom c aem magic0).2.eep_buf.drop c.AR9287_DATA_START_LOC := by
    rw [r7, eep_9287_copy_loop_eq _ _ _ _ (by rw [g4, f3, heep])
      (by rw [g5, f2, hbuf]), ← r4]
    apply List.take_of_length_le
    rw [List.length_drop, hlen]
    omega
  refine ⟨a1, a2, a3, hlen, ?_, ?_, ?_, ?_, ?_⟩
  · intro i hlt
    rw [hi, List.getElem?_take_of_lt hlt]
  · intro j _
    rw [he, List.getElem?_drop]
  · rw [hi, List.length_take, hlen]
    omega
  · rw [he, List.length_drop, hlen]
    omega
  · rw [hi, he, List.take_append_drop]

theorem eep_9287_fill_eeprom_success_witness :
    (eep_9287_fill_eeprom consts_small
        (aem_fill (con_total [0xa55a, 0, 0, 8, 0x1ff6, 0xe001, 0])) 0).1 = true ∧
    (eep_9287_fill_eeprom consts_small
        (aem_fill (con_total [0xa55a, 0, 0, 8, 0x1ff6, 0xe001, 0])) 0).2.con_reads
      = [0, 0, 1, 2, 3, 4, 5, 6] ∧
    (eep_9287_fill_eeprom consts_small
        (aem_fill (con_total [0xa55a, 0, 0, 8, 0x1ff6, 0xe001, 0])) 0).2.eepmap_priv
      = { init_data := [0xa55a, 0, 0], eep_data := [8, 0x1ff6, 0xe001, 0] } :=
  ⟨(eep_9287_fill_eeprom_success consts_small
      (aem_fill (con_total [0xa55a, 0, 0, 8, 0x1ff6, 0xe001, 0])) 0
      (fun _ _ => rfl) (by decide) (by decide) (by decide)).1,
   by decide, by decide⟩

/-- C7: when the initial magic probe fails, or when the backend's reads
succeed below `k < AR9287_DATA_START_LOC + AR9287_DATA_SZ` and fail at `k`
(the magic offset not lying above `k`), `eep_9287_fill_eeprom` returns false,
issues no read for an offset greater than `k` (the probe alone in the first
case; the probe, if it succeeds, followed by `0, ..., k` in the second), and
leaves the init block, the calibration record and `eep_len` as they were. -/
theorem eep_9287_fill_eeprom_failure (c : eep_consts)
    (aem : atheepmgr eep_9287_words) (magic0 : Nat) :
    ((aem.con.eep_read c.AR5416_EEPROM_MAGIC_OFFSET magic0).1 = false →
      (eep_9287_fill_eeprom c aem magic0).1 = false ∧
      (eep_9287_fill_eeprom c aem magic0).2.con_reads
        = aem.con_reads ++ [c.AR5416_EEPROM_MAGIC_OFFSET] ∧
      (eep_9287_fill_eeprom c aem magic0).2.eepmap_priv = aem.eepmap_priv ∧
      (eep_9287_fill_eeprom c aem magic0).2.eep_len = aem.eep_len) ∧
    (∀ k, k < c.AR9287_DATA_START_LOC + c.AR9287_DATA_SZ →
      c.AR5416_EEPROM_MAGIC_OFFSET ≤ k →
      (∀ a, a < k → ∀ old, (aem.con.eep_read a old).1 = true) →
      (∀ old, (aem.con.eep_read k old).1 = false) →
      (eep_9287_fill_eeprom c aem magic0).1 = false ∧
      (∃ reads, (eep_9287_fill_eeprom c aem magic0).2.con_reads
          = aem.con_reads ++ reads ∧
        (reads = [c.AR5416_EEPROM_MAGIC_OFFSET] ∨
          reads = c.AR5416_EEPROM_MAGIC_OFFSET :: List.range (k + 1)) ∧
        ∀ a, a ∈ reads → a ≤ k) ∧
      (eep_9287_fill_eeprom c aem magic0).2.eepmap_priv = aem.eepmap_priv ∧
      (eep_9287_fill_eeprom c aem magic0).2.eep_len = aem.eep_len) := by
  constructor
  · intro h
    rw [eep_9287_fill_eeprom_probe_fail c aem magic0 h]
    exact ⟨rfl, rfl, rfl, rfl⟩
  · intro k hk hoff hok hfail
    by_cases hp : (aem.con.eep_read c.AR5416_EEPROM_MAGIC_OFFSET magic0).1 = true
    · obtain ⟨f1, f2, f3, f4, f5, f6⟩ := eep_9287_after_probe_frame c aem magic0
      have hok1 : ∀ a, 0 ≤ a → a < k → ∀ old,
          ((eep_9287_after_probe c aem magic0).con.eep_read a old).1 = true := by
        intro a _ h old
        rw [f1]
        exact hok a h old
      have hfail1 : ∀ old,
          ((eep_9287_after_probe c aem magic0).con.eep_read k old).1 = false := by
        intro old
        rw [f1]
        exact hfail old
      obtain ⟨l1, l2, -, l4, l5⟩ := eep_9287_read_loop_fail
        (c.AR9287_DATA_START_LOC + c.AR9287_DATA_SZ) 0 k
        (eep_9287_after_probe c aem magic0) (Nat.zero_le _) (by omega) hok1 hfail1
      rw [eep_9287_fill_eeprom_loop_fail c aem magic0 hp l1]
      refine ⟨rfl, ⟨c.AR5416_EEPROM_MAGIC_OFFSET :: List.range (k + 1), ?_,
        Or.inr rfl, ?_⟩, ?_, ?_⟩
      · show (eep_9287_read_loop _ 0 (eep_9287_after_probe c aem magic0)).2.con_reads = _
        rw [l2, f5, List.range_eq_range']
        simp
      · intro a ha
        rcases List.mem_cons.mp ha with h | h
        · omega
        · have := List.mem_range.mp h
          omega
      · show (eep_9287_read_loop _ 0 (eep_9287_after_probe c aem magic0)).2.eepmap_priv = _
        rw [l5, f3]
      · show (eep_9287_read_loop _ 0 (eep_9287_after_probe c aem magic0)).2.eep_len = _
        rw [l4, f4]
    · have hp' : (aem.con.eep_read c.AR5416_EEPROM_MAGIC_OFFSET magic0).1 = false := by
        simpa using hp
      rw [eep_9287_fill_eeprom_probe_fail c aem magic0 hp']
      refine ⟨rfl, ⟨[c.AR5416_EEPROM_MAGIC_OFFSET], rfl, Or.inl rfl, ?_⟩, rfl, rfl⟩
      intro a ha
      rw [List.mem_singleton.mp ha]
      exact hoff

theorem eep_9287_fill_eeprom_failure_witness :
    ((eep_9287_fill_eeprom consts_small (aem_fill con_none) 0).1 = false ∧
      (eep_9287_fill_eeprom consts_small (aem_fill con_none) 0).2.con_reads = [0]) ∧
    ((eep_9287_fill_eeprom consts_small
        (aem_fill (con_image [0xa55a, 0, 0, 8, 0x1ff6])) 0).1 = false ∧
      (eep_9287_fill_eeprom consts_small
        (aem_fill (con_image [0xa55a, 0, 0, 8, 0x1ff6])) 0).2.con_reads
          = [0, 0, 1, 2, 3, 4, 5] ∧
      (eep_9287_fill_eeprom consts_small
        (aem_fill (con_image [0xa55a, 0, 0, 8, 0x1ff6])) 0).2.eepmap_priv
          = { init_data := [0, 0, 0], eep_data := [0, 0, 0, 0] } ∧
      (eep_9287_fill_eeprom consts_small
        (aem_fill (con_image [0xa55a, 0, 0, 8, 0x1ff6])) 0).2.eep_len = 0) :=
  ⟨⟨((eep_9287_fill_eeprom_failure consts_small (aem_fill con_none) 0).1 rfl).1,
    ((eep_9287_fill_eeprom_failure consts_small (aem_fill con_none) 0).1 rfl).2.1⟩,
   ((eep_9287_fill_eeprom_failure consts_small
      (aem_fill (con_image [0xa55a, 0, 0, 8, 0x1ff6])) 0).2 5 (by decide) (by decide)
      (fun a h old => by
        show (if a < 5 then (true, _) else (false, old)).1 = true
        rw [if_pos h])
      (fun old => rfl)).1,
   by decide,
   ((eep_9287_fill_eeprom_failure consts_small
      (aem_fill (con_image [0xa55a, 0, 0, 8, 0x1ff6])) 0).2 5 (by decide) (by decide)
      (fun a h old => by
        show (if a < 5 then (true, _) else (false, old)).1 = true
        rw [if_pos h])
      (fun old => rfl)).2.2.1,
   by decide⟩

/-- C6: on a backend whose reads all succeed and whose word at the magic
offset is the byte-reversal of `AR5416_EEPROM_MAGIC`, starting with the swap
state clear, `eep_9287_fill_eeprom` ends with the swap state set, every
buffer word is the byte-reversal of the backend's word at its offset, and the
buffered word at the magic offset is `AR5416_EEPROM_MAGIC`.  In general (the
probe read succeeding) the swap state changes exactly when the byte-reversal
of the as-read magic word equals the constant; when neither the as-read word
nor its reversal matches, the swap state is unchanged and the acquisition
still reads the whole image. -/
theorem eep_9287_fill_eeprom_negotiate (c : eep_consts)
    (aem : atheepmgr eep_9287_words) (magic0 : Nat)
    (hbuf : aem.eep_buf.length = eepmap_9287_eep_buf_sz c)
    (hprobe : (aem.con.eep_read c.AR5416_EEPROM_MAGIC_OFFSET magic0).1 = true) :
    ((∀ a old, (aem.con.eep_read a old).1 = true) →
      (∀ old, (aem.con.eep_read c.AR5416_EEPROM_MAGIC_OFFSET old).2
        = byte_reverse 2 c.AR5416_EEPROM_MAGIC) →
      aem.eep_io_swap = false →
      c.AR5416_EEPROM_MAGIC < 65536 →
      c.AR5416_EEPROM_MAGIC_OFFSET < eepmap_9287_eep_buf_sz c →
      (eep_9287_fill_eeprom c aem magic0).1 = true ∧
      (eep_9287_fill_eeprom c aem magic0).2.eep_io_swap = true ∧
      (∀ a, a < eepmap_9287_eep_buf_sz c →
        (eep_9287_fill_eeprom c aem magic0).2.eep_buf.getD a 0
          = byte_reverse 2 (aem.con.eep_read a (aem.eep_buf.getD a 0)).2) ∧
      (eep_9287_fill_eeprom c aem magic0).2.eep_buf.getD
          c.AR5416_EEPROM_MAGIC_OFFSET 0 = c.AR5416_EEPROM_MAGIC) ∧
    ((eep_9287_fill_eeprom c aem magic0).2.eep_io_swap ≠ aem.eep_io_swap ↔
      byte_reverse 2 (hw_eeprom_read aem c.AR5416_EEPROM_MAGIC_OFFSET magic0).2.1
        = c.AR5416_EEPROM_MAGIC) ∧
    ((hw_eeprom_read aem c.AR5416_EEPROM_MAGIC_OFFSET magic0).2.1
        ≠ c.AR5416_EEPROM_MAGIC →
      byte_reverse 2 (hw_eeprom_read aem c.AR5416_EEPROM_MAGIC_OFFSET magic0).2.1
        ≠ c.AR5416_EEPROM_MAGIC →
      (eep_9287_fill_eeprom c aem magic0).2.eep_io_swap = aem.eep_io_swap ∧
      ((∀ a old, (aem.con.eep_read a old).1 = true) →
        (eep_9287_fill_eeprom c aem magic0).1 = true ∧
        (eep_9287_fill_eeprom c aem magic0).2.con_reads
          = aem.con_reads ++ c.AR5416_EEPROM_MAGIC_OFFSET ::
              List.range (c.AR9287_DATA_START_LOC + c.AR9287_DATA_SZ))) := by
  simp only [← bswap_16_eq_byte_reverse]
  unfold eepmap_9287_eep_buf_sz at *
  obtain ⟨f1, f2, f3, f4, f5, f6⟩ := eep_9287_after_probe_frame c aem magic0
  -- the swap state after the call is the one after the probe
  have hswap : (eep_9287_fill_eeprom c aem magic0).2.eep_io_swap
      = (eep_9287_after_probe c aem magic0).eep_io_swap := by
    obtain ⟨g1, g2, g3, g4, g5⟩ := eep_9287_read_loop_frame
      (c.AR9287_DATA_START_LOC + c.AR9287_DATA_SZ) 0 (eep_9287_after_probe c aem magic0)
    rw [eep_9287_fill_eeprom_probe_ok c aem magic0 hprobe]
    split_ifs
    · exact g2
    · exact g2
  refine ⟨?_, ?_, ?_⟩
  · intro hok hword hsw hmag hoff
    obtain ⟨a1, -, -, -, a5, a6⟩ := eep_9287_fill_eeprom_all_ok c aem magic0 hok
    have hread : (hw_eeprom_read aem c.AR5416_EEPROM_MAGIC_OFFSET magic0).2.1
        = bswap_16 c.AR5416_EEPROM_MAGIC := by
      rw [hw_eeprom_read_data _ _ _ hprobe, hsw, hword]
      rfl
    have hset : (eep_9287_after_probe c aem magic0).eep_io_swap = true := by
      rw [f6, hread, bswap_16_bswap_16 _ hmag, if_pos rfl, hsw]
      rfl
    have hall : ∀ a, a < c.AR9287_DATA_START_LOC + c.AR9287_DATA_SZ →
        (eep_9287_fill_eeprom c aem magic0).2.eep_buf.getD a 0
          = bswap_16 (aem.con.eep_read a (aem.eep_buf.getD a 0)).2 := by
      intro a ha
      rw [a6 a ha (by omega), hset, if_pos rfl]
    refine ⟨a1, by rw [a5, hset], hall, ?_⟩
    rw [hall _ hoff, hword, bswap_16_bswap_16 _ hmag]
  · rw [hswap, f6]
    split_ifs with h
    · simp [h]
    · simp [h]
  · intro h1 h2
    refine ⟨by rw [hswap, f6, if_neg h2], ?_⟩
    intro hok
    obtain ⟨a1, a2, -, -, -, -⟩ := eep_9287_fill_eeprom_all_ok c aem magic0 hok
    exact ⟨a1, a2⟩

theorem eep_9287_fill_eeprom_negotiate_witness :
    (eep_9287_fill_eeprom consts_small
        (aem_fill (con_total [0x5aa5, 0, 0, 0x0800, 0xf61f, 0x01e0, 0])) 0).2.eep_io_swap
      = true ∧
    (eep_9287_fill_eeprom consts_small
        (aem_fill (con_total [0x5aa5, 0, 0, 0x0800, 0xf61f, 0x01e0, 0])) 0).2.eep_buf
      = [0xa55a, 0, 0, 8, 0x1ff6, 0xe001, 0] ∧
    (eep_9287_fill_eeprom consts_small
        (aem_fill (con_total [0x1234, 0, 0, 0, 0, 0, 0])) 0).2.eep_io_swap
      = false :=
  ⟨((eep_9287_fill_eeprom_negotiate consts_small
      (aem_fill (con_total [0x5aa5, 0, 0, 0x0800, 0xf61f, 0x01e0, 0])) 0
      (by decide) rfl).1 (fun _ _ => rfl) (fun _ => rfl) rfl (by decide)
        (by decide)).2.1,
   by decide,
   ((eep_9287_fill_eeprom_negotiate consts_small
      (aem_fill (con_total [0x1234, 0, 0, 0, 0, 0, 0])) 0
      (by decide) rfl).2.2 (by decide) (by decide)).1⟩

/-! ## The checksum -/

theorem testBit_rotl16 (r x i : Nat) (hx : x < 65536) :
    (rotl16 r x).testBit i
      = (decide (i < 16) && x.testBit ((i + 16 - r % 16) % 16)) := by
  have hk : r % 16 < 16 := Nat.mod_lt _ (by decide)
  unfold rotl16
  rw [show (65536 : Nat) = 2 ^ 16 from rfl]
  simp only [Nat.testBit_mod_two_pow, Nat.testBit_or, Nat.testBit_shiftLeft,
    Nat.testBit_shiftRight]
  by_cases hi : i < 16
  · by_cases hki : r % 16 ≤ i
    · have hhigh : x.testBit (16 - r % 16 + i) = false := by
        apply Nat.testBit_lt_two_pow
        calc x < 2 ^ 16 := hx
          _ ≤ 2 ^ (16 - r % 16 + i) := Nat.pow_le_pow_right (by decide) (by omega)
      have hidx : (i + 16 - r % 16) % 16 = i - r % 16 := by omega
      rw [hhigh, hidx]
      simp [hi, hki]
    · have hidx : (i + 16 - r % 16) % 16 = 16 - r % 16 + i := by omega
      rw [hidx]
      simp [hi, hki]
  · simp [hi]

theorem rotl16_lt (r x : Nat) : rotl16 r x < 65536 :=
  Nat.mod_lt _ (by decide)

theorem rotl16_inj (r x y : Nat) (hx : x < 65536) (hy : y < 65536)
    (h : rotl16 r x = rotl16 r y) : x = y := by
  have hk : r % 16 < 16 := Nat.mod_lt _ (by decide)
  apply Nat.eq_of_testBit_eq
  intro j
  by_cases hj : j < 16
  · have hx1 := testBit_rotl16 r x ((j + r % 16) % 16) hx
    have hy1 := testBit_rotl16 r y ((j + r % 16) % 16) hy
    have hidx : ((j + r % 16) % 16 + 16 - r % 16) % 16 = j := by omega
    have hlt : (j + r % 16) % 16 < 16 := Nat.mod_lt _ (by decide)
    rw [hidx] at hx1 hy1
    simp only [hlt, decide_True, Bool.true_and] at hx1 hy1
    rw [← hx1, ← hy1, h]
  · have hpow : (2 : Nat) ^ 16 ≤ 2 ^ j := Nat.pow_le_pow_right (by decide) (by omega)
    rw [Nat.testBit_lt_two_pow (lt_of_lt_of_le hx hpow),
      Nat.testBit_lt_two_pow (lt_of_lt_of_le hy hpow)]

theorem csum_step_lt (r a w : Nat) : rotl16 r a ^^^ (w % 65536) < 65536 :=
  Nat.xor_lt_two_pow (n := 16) (rotl16_lt r a) (Nat.mod_lt _ (by decide))

theorem eep_calc_csum_from_lt (r : Nat) (buf : List Nat) (a : Nat) (ha : a < 65536) :
    eep_calc_csum_from r a buf < 65536 := by
  induction buf generalizing a with
  | nil => exact ha
  | cons w t ih => exact ih _ (csum_step_lt r a w)

theorem eep_calc_csum_lt (r : Nat) (buf : List Nat) : eep_calc_csum r buf < 65536 :=
  eep_calc_csum_from_lt r buf 0 (by decide)

theorem eep_calc_csum_from_inj (r : Nat) (buf : List Nat) (a a' : Nat)
    (ha : a < 65536) (ha' : a' < 65536) (hne : a ≠ a') :
    eep_calc_csum_from r a buf ≠ eep_calc_csum_from r a' buf := by
  induction buf generalizing a a' with
  | nil => exact hne
  | cons w t ih =>
    apply ih _ _ (csum_step_lt r a w) (csum_step_lt r a' w)
    intro h
    exact hne (rotl16_inj r a a' ha ha' (Nat.xor_left_inj.mp h))

theorem flip_bit_mod_ne (w b : Nat) (hb : b < 16) :
    flip_bit w b % 65536 ≠ w % 65536 := by
  intro h
  have h1 : (flip_bit w b % 2 ^ 16).testBit b = (w % 2 ^ 16).testBit b := by
    rw [show (2 : Nat) ^ 16 = 65536 from rfl, h]
  unfold flip_bit at h1
  simp only [Nat.testBit_mod_two_pow, Nat.testBit_xor, Nat.testBit_two_pow_self, hb,
    decide_True, Bool.true_and, Bool.xor_true] at h1
  cases hw : w.testBit b <;> simp [hw] at h1

theorem eep_calc_csum_from_flip (r : Nat) (buf : List Nat) (a i b : Nat)
    (ha : a < 65536) (hi : i < buf.length) (hb : b < 16) :
    eep_calc_csum_from r a (flip_region_bit buf i b) ≠ eep_calc_csum_from r a buf := by
  induction buf generalizing a i with
  | nil => simp at hi
  | cons w t ih =>
    cases i with
    | zero =>
      show eep_calc_csum_from r (rotl16 r a ^^^ (flip_bit w b % 65536)) t
        ≠ eep_calc_csum_from r (rotl16 r a ^^^ (w % 65536)) t
      apply eep_calc_csum_from_inj r t _ _ (csum_step_lt r a _) (csum_step_lt r a w)
      intro h
      exact flip_bit_mod_ne w b hb (Nat.xor_right_inj.mp h)
    | succ i =>
      have hi' : i < t.length := by simpa using hi
      exact ih (rotl16 r a ^^^ (w % 65536)) i (csum_step_lt r a w) hi'

theorem csum_region_flip (c : eep_consts) (buf : List Nat) (el i b : Nat)
    (hi : i < el) :
    ((flip_region_bit buf (c.AR9287_DATA_START_LOC + i) b).drop
        c.AR9287_DATA_START_LOC).take el
      = flip_region_bit ((buf.drop c.AR9287_DATA_START_LOC).take el) i b := by
  have hget : ((buf.drop c.AR9287_DATA_START_LOC).take el).getD i 0
      = buf.getD (c.AR9287_DATA_START_LOC + i) 0 := by
    simp only [List.getD_eq_getElem?_getD]
    rw [List.getElem?_take_of_lt hi, List.getElem?_drop]
  unfold flip_region_bit
  rw [hget, ← List.set_drop, List.set_take]

/-- C4: whenever the checksum of a region is `0xFFFF`, flipping any single bit
of any word of the region gives a checksum different from `0xFFFF`; so when
the check passes on a buffer, it fails on the buffer with one bit flipped in
one of the checksummed words (the record, hence the checksummed length, being
the same). -/
theorem eep_calc_csum_bit_flip (rot : Nat) :
    (∀ buf i b, eep_calc_csum rot buf = 0xFFFF → i < buf.length → b < 16 →
      eep_calc_csum rot (flip_region_bit buf i b) ≠ 0xFFFF) ∧
    (∀ (c : eep_consts) (aem : atheepmgr eep_9287_priv) (i b : Nat),
      aem.eep_buf.length = eepmap_9287_eep_buf_sz c →
      (eep_9287_check_eeprom c (eep_calc_csum rot) aem).1 = true →
      i < min (reconciled_word c aem .length / 2) c.AR9287_DATA_SZ →
      b < 16 →
      (eep_9287_check_eeprom c (eep_calc_csum rot)
        { aem with eep_buf :=
            flip_region_bit aem.eep_buf (c.AR9287_DATA_START_LOC + i) b }).1
        = false) := by
  have part1 : ∀ buf i b, eep_calc_csum rot buf = 0xFFFF → i < buf.length → b < 16 →
      eep_calc_csum rot (flip_region_bit buf i b) ≠ 0xFFFF := by
    intro buf i b hsum hi hb h
    exact eep_calc_csum_from_flip rot buf 0 i b (by decide) hi hb (h.trans hsum.symm)
  refine ⟨part1, ?_⟩
  intro c aem i b hbuf hpass hi hb
  have hbuf' : (flip_region_bit aem.eep_buf (c.AR9287_DATA_START_LOC + i) b).length
      = eepmap_9287_eep_buf_sz c := by
    unfold flip_region_bit
    rw [List.length_set, hbuf]
  have h0 := ((eep_9287_check_eeprom_status_region c (eep_calc_csum rot) aem hbuf).mp hpass).2.2.2
  rw [Nat.mod_eq_of_lt (eep_calc_csum_lt rot _)] at h0
  rw [Bool.eq_false_iff]
  intro hpass'
  have h1 := ((eep_9287_check_eeprom_status_region c (eep_calc_csum rot)
    { aem with eep_buf :=
        flip_region_bit aem.eep_buf (c.AR9287_DATA_START_LOC + i) b } hbuf').mp
      hpass').2.2.2
  rw [Nat.mod_eq_of_lt (eep_calc_csum_lt rot _)] at h1
  have hreg : reconciled_word c
      { aem with eep_buf :=
          flip_region_bit aem.eep_buf (c.AR9287_DATA_START_LOC + i) b } .length
      = reconciled_word c aem .length := rfl
  simp only [hreg] at h1
  unfold eepmap_9287_eep_buf_sz at hbuf
  rw [csum_region_flip c aem.eep_buf _ i b hi] at h1
  refine part1 _ i b h0 ?_ hb h1
  rw [List.length_take, List.length_drop]
  omega

theorem eep_calc_csum_bit_flip_witness :
    eep_calc_csum 0 [8, 0x1ff6, 0xe001, 0] = 0xFFFF ∧
    eep_calc_csum 0 (flip_region_bit [8, 0x1ff6, 0xe001, 0] 1 3) ≠ 0xFFFF ∧
    eep_calc_csum 3 [0x3b81, 0x1ff6, 0xe001, 0] = 0xFFFF ∧
    eep_calc_csum 3 (flip_region_bit [0x3b81, 0x1ff6, 0xe001, 0] 2 15) ≠ 0xFFFF ∧
    (eep_9287_check_eeprom consts_small (eep_calc_csum 0)
      { aem_small 0xa55a (eep_small 8 0xe001 0) with
        eep_buf := flip_region_bit
          (aem_small 0xa55a (eep_small 8 0xe001 0)).eep_buf (3 + 2) 0 }).1 = false :=
  ⟨by decide,
   (eep_calc_csum_bit_flip 0).1 [8, 0x1ff6, 0xe001, 0] 1 3 (by decide) (by decide)
    (by decide),
   by decide,
   (eep_calc_csum_bit_flip 3).1 [0x3b81, 0x1ff6, 0xe001, 0] 2 15 (by decide)
    (by decide) (by decide),
   (eep_calc_csum_bit_flip 0).2 consts_small
    (aem_small 0xa55a (eep_small 8 0xe001 0)) 2 0 (by decide) (by decide)
    (by decide) (by decide)⟩

/-! ## Polling -/

theorem hw_wait_loop_spec (reg_read : Nat → Nat → Nat) (reg mask val : Nat)
    (rem i : Nat) (hmax : i + rem ≤ INT_MAX) :
    ∃ b reads, hw_wait_loop reg_read reg mask val rem i = some (b, reads) ∧
      i ≤ reads ∧ reads ≤ i + rem ∧
      (b = true ↔ ∃ j, i ≤ j ∧ j < i + rem ∧ reg_read reg j &&& mask = val) ∧
      (∀ j, i ≤ j → j + 1 < reads → reg_read reg j &&& mask ≠ val) ∧
      (b = true → i + 1 ≤ reads ∧ reg_read reg (reads - 1) &&& mask = val) ∧
      (b = false → reads = i + rem) := by
  induction rem generalizing i with
  | zero =>
    refine ⟨false, i, rfl, le_refl _, le_refl _, ?_, ?_, ?_, ?_⟩
    · constructor
      · intro h
        cases h
      · rintro ⟨j, h1, h2, -⟩
        omega
    · intro j h1 h2
      omega
    · intro h
      cases h
    · intro _
      rfl
  | succ rem ih =>
    rw [hw_wait_loop]
    by_cases hm : reg_read reg i &&& mask = val
    · rw [if_pos hm]
      refine ⟨true, i + 1, rfl, by omega, by omega, ?_, ?_, ?_, ?_⟩
      · exact ⟨fun _ => ⟨i, le_refl _, by omega, hm⟩, fun _ => rfl⟩
      · intro j h1 h2
        omega
      · intro _
        exact ⟨le_refl _, by simpa using hm⟩
      · intro h
        cases h
    · rw [if_neg hm, if_neg (by omega)]
      obtain ⟨b, reads, e, h1, h2, h3, h4, h5, h6⟩ := ih (i + 1) (by omega)
      refine ⟨b, reads, e, by omega, by omega, ?_, ?_, ?_, ?_⟩
      · rw [h3]
        constructor
        · rintro ⟨j, a1, a2, a3⟩
          exact ⟨j, by omega, by omega, a3⟩
        · rintro ⟨j, a1, a2, a3⟩
          have hne : j ≠ i := by
            intro hji
            rw [hji] at a3
            exact hm a3
          exact ⟨j, by omega, by omega, a3⟩
      · intro j a1 a2
        by_cases hji : j = i
        · rw [hji]
          exact hm
        · exact h4 j (by omega) a2
      · intro hb
        obtain ⟨c1, c2⟩ := h5 hb
        exact ⟨by omega, c2⟩
      · intro hb
        rw [h6 hb]
        omega

theorem bswap_32_bytes (b0 b1 b2 b3 : Nat) (h0 : b0 < 256) (h1 : b1 < 256)
    (h2 : b2 < 256) (h3 : b3 < 256) :
    bswap_32 (b0 + 256 * b1 + 65536 * b2 + 16777216 * b3)
      = b3 + 256 * b2 + 65536 * b1 + 16777216 * b0 := by
  unfold bswap_32
  omega

theorem bswap_32_bswap_32 (x : Nat) (h : x < 4294967296) :
    bswap_32 (bswap_32 x) = x := by
  have hx : x = x % 256 + 256 * (x / 256 % 256) + 65536 * (x / 65536 % 256)
      + 16777216 * (x / 16777216) := by omega
  have h3 : x / 16777216 < 256 := by omega
  rw [hx, bswap_32_bytes _ _ _ _ (Nat.mod_lt _ (by decide)) (Nat.mod_lt _ (by decide))
    (Nat.mod_lt _ (by decide)) h3,
    bswap_32_bytes _ _ _ _ h3 (Nat.mod_lt _ (by decide)) (Nat.mod_lt _ (by decide))
    (Nat.mod_lt _ (by decide))]

/-- C11: `hw_wait` returns true exactly when one of its first
`timeout / AH_TIME_QUANTUM` reads `r` of the register has `(r & mask) == val`;
it makes no read after the first matching one and never more than
`timeout / AH_TIME_QUANTUM` reads, so it always returns; and it returns false
without reading when `timeout < AH_TIME_QUANTUM`. -/
theorem hw_wait_spec (AH_TIME_QUANTUM : Nat) (reg_read : Nat → Nat → Nat)
    (reg mask val timeout : Nat)
    (hq : 2 ≤ AH_TIME_QUANTUM) (ht : timeout < 4294967296) :
    ∃ b reads, hw_wait AH_TIME_QUANTUM reg_read reg mask val timeout
        = some (b, reads) ∧
      (b = true ↔ ∃ j, j < timeout / AH_TIME_QUANTUM ∧
        reg_read reg j &&& mask = val) ∧
      (∀ j, j + 1 < reads → reg_read reg j &&& mask ≠ val) ∧
      (b = true → 1 ≤ reads ∧ reg_read reg (reads - 1) &&& mask = val) ∧
      (b = false → reads = timeout / AH_TIME_QUANTUM) ∧
      reads ≤ timeout / AH_TIME_QUANTUM ∧
      (timeout < AH_TIME_QUANTUM → b = false ∧ reads = 0) := by
  have hdiv : timeout / AH_TIME_QUANTUM ≤ timeout / 2 :=
    Nat.div_le_div_left hq (by decide)
  have hmax : 0 + timeout / AH_TIME_QUANTUM ≤ INT_MAX := by
    unfold INT_MAX
    omega
  obtain ⟨b, reads, e, -, h2, h3, h4, h5, h6⟩ :=
    hw_wait_loop_spec reg_read reg mask val (timeout / AH_TIME_QUANTUM) 0 hmax
  refine ⟨b, reads, ?_, ?_, ?_, ?_, ?_, ?_, ?_⟩
  · unfold hw_wait
    rw [if_neg (by omega), e]
  · rw [h3]
    constructor
    · rintro ⟨j, -, a2, a3⟩
      exact ⟨j, by omega, a3⟩
    · rintro ⟨j, a2, a3⟩
      exact ⟨j, Nat.zero_le _, by omega, a3⟩
  · intro j hj
    exact h4 j (Nat.zero_le _) hj
  · intro hb
    obtain ⟨c1, c2⟩ := h5 hb
    exact ⟨by omega, c2⟩
  · intro hb
    rw [h6 hb]
    omega
  · omega
  · intro hlt
    have hz : timeout / AH_TIME_QUANTUM = 0 := Nat.div_eq_of_lt hlt
    have hr : reads = 0 := by omega
    refine ⟨?_, hr⟩
    cases b with
    | false => rfl
    | true =>
      obtain ⟨c1, -⟩ := h5 rfl
      omega

theorem hw_wait_spec_witness :
    hw_wait 10 (reg_read_at 3 0x80) 0x4000 0x80 0x80 100 = some (true, 4) ∧
    hw_wait 10 (reg_read_at 3 0x80) 0x4000 0x80 0x80 30 = some (false, 3) ∧
    hw_wait 10 (reg_read_at 0 0x80) 0x4000 0x80 0x80 9 = some (false, 0) ∧
    ∃ b reads, hw_wait 10 (reg_read_at 3 0x80) 0x4000 0x80 0x80 100
        = some (b, reads) ∧ reads ≤ 100 / 10 :=
  ⟨by decide, by decide, by decide,
   (hw_wait_spec 10 (reg_read_at 3 0x80) 0x4000 0x80 0x80 100 (by decide)
      (by decide)).imp
    (fun _ h => h.imp (fun _ h2 => ⟨h2.1, h2.2.2.2.2.2.1⟩))⟩

/-! ## Reconciliation twice -/

theorem ar9287_field_width_cases (f : ar9287_field) :
    f.width = 1 ∨ f.width = 2 ∨ f.width = 4 := by
  cases f <;> simp [ar9287_field.width]

theorem byte_reverse_twice (w x : Nat) (hw : w = 2 ∨ w = 4) (hx : x < 256 ^ w) :
    byte_reverse w (byte_reverse w x) = x := by
  rcases hw with h | h
  · subst h
    rw [← bswap_16_eq_byte_reverse, ← bswap_16_eq_byte_reverse]
    exact bswap_16_bswap_16 x (by simpa using hx)
  · subst h
    rw [← bswap_32_eq_byte_reverse, ← bswap_32_eq_byte_reverse]
    exact bswap_32_bswap_32 x (by simpa using hx)

theorem eep_9287_swap_fields_twice (c : eep_consts) (e : ar9287_eeprom)
    (ht : e.typed) :
    eep_9287_swap_fields c (eep_9287_swap_fields c e) = e := by
  funext f
  rw [eep_9287_swap_fields_apply, eep_9287_swap_fields_apply]
  by_cases h : f.declared c = true ∧ 1 < f.width
  · rw [if_pos h, if_pos h]
    apply byte_reverse_twice _ _ _ (ht f)
    rcases ar9287_field_width_cases f with h1 | h1 | h1
    · omega
    · exact Or.inl h1
    · exact Or.inr h1
  · rw [if_neg h, if_neg h]

theorem eep_9287_swap_fields_eepMisc (c : eep_consts) (e : ar9287_eeprom) :
    eep_9287_swap_fields c e .eepMisc = e .eepMisc := by
  rw [eep_9287_swap_fields_apply, if_neg]
  rintro ⟨-, h⟩
  simp [ar9287_field.width] at h

theorem eep_9287_check_eeprom_host (c : eep_consts) (csum : List Nat → Nat)
    (aem : atheepmgr eep_9287_priv) :
    (eep_9287_check_eeprom c csum aem).2.host_is_be = aem.host_is_be := by
  unfold eep_9287_check_eeprom
  simp only []
  split_ifs <;> rfl

theorem eep_9287_check_eeprom_priv_bad_magic (c : eep_consts)
    (csum : List Nat → Nat) (aem : atheepmgr eep_9287_priv)
    (hmagic : aem.eepmap_priv.ini.magic ≠ c.AR5416_EEPROM_MAGIC) :
    (eep_9287_check_eeprom c csum aem).2 = aem := by
  unfold eep_9287_check_eeprom
  simp only []
  rw [if_pos hmagic]

theorem eep_9287_reconciled_ini (c : eep_consts) (aem : atheepmgr eep_9287_priv) :
    (eep_9287_reconciled c aem).ini = aem.eepmap_priv.ini := by
  unfold eep_9287_reconciled
  split_ifs <;> rfl

/-- The record after two runs of the check. -/
theorem eep_9287_check_eeprom_twice (c : eep_consts) (csum : List Nat → Nat)
    (aem : atheepmgr eep_9287_priv) (ht : aem.eepmap_priv.eep.typed) :
    (eep_9287_check_eeprom c csum (eep_9287_check_eeprom c csum aem).2).2.eepmap_priv
      = aem.eepmap_priv := by
  by_cases hmagic : aem.eepmap_priv.ini.magic = c.AR5416_EEPROM_MAGIC
  · have h1 := eep_9287_check_eeprom_priv c csum aem hmagic
    have hh := eep_9287_check_eeprom_host c csum aem
    have hm1 : (eep_9287_check_eeprom c csum aem).2.eepmap_priv.ini.magic
        = c.AR5416_EEPROM_MAGIC := by
      rw [h1, eep_9287_reconciled_ini, hmagic]
    rw [eep_9287_check_eeprom_priv c csum _ hm1]
    by_cases hmis : eep_9287_endian_mismatch c aem = true
    · have hrec : eep_9287_reconciled c aem
          = { aem.eepmap_priv with
              eep := eep_9287_swap_fields c aem.eepmap_priv.eep } := by
        unfold eep_9287_reconciled
        rw [if_pos hmis]
      have hmis1 : eep_9287_endian_mismatch c (eep_9287_check_eeprom c csum aem).2
          = true := by
        unfold eep_9287_endian_mismatch at hmis ⊢
        rw [hh, h1, hrec]
        simp only []
        rw [eep_9287_swap_fields_eepMisc]
        exact hmis
      unfold eep_9287_reconciled
      rw [if_pos hmis1, h1, hrec]
      simp only []
      rw [eep_9287_swap_fields_twice c _ ht]
    · have hrec : eep_9287_reconciled c aem = aem.eepmap_priv := by
        unfold eep_9287_reconciled
        rw [if_neg hmis]
      have hmis1 : ¬ eep_9287_endian_mismatch c (eep_9287_check_eeprom c csum aem).2
          = true := by
        unfold eep_9287_endian_mismatch at hmis ⊢
        rw [hh, h1, hrec]
        exact hmis
      unfold eep_9287_reconciled
      rw [if_neg hmis1, h1, hrec]
  · rw [eep_9287_check_eeprom_priv_bad_magic c csum aem hmagic,
      eep_9287_check_eeprom_priv_bad_magic c csum aem hmagic]

/-- C12: byte-reversing a 16-bit or a 32-bit value twice restores it;
therefore applying the field-by-field reversal of the reconciliation step
twice to a record gives the record back; the one-byte `eepMisc` flag is never
reversed, and a second run of `eep_9287_check_eeprom` on the record the first
run left takes the same branch and restores the original record. -/
theorem eep_9287_reconcile_involutive (c : eep_consts) :
    (∀ x, x < 65536 → bswap_16 (bswap_16 x) = x) ∧
    (∀ x, x < 4294967296 → bswap_32 (bswap_32 x) = x) ∧
    (∀ w x, (w = 2 ∨ w = 4) → x < 256 ^ w →
      byte_reverse w (byte_reverse w x) = x) ∧
    (∀ e : ar9287_eeprom, e.typed →
      eep_9287_swap_fields c (eep_9287_swap_fields c e) = e) ∧
    (∀ e : ar9287_eeprom, eep_9287_swap_fields c e .eepMisc = e .eepMisc) ∧
    (∀ (csum : List Nat → Nat) (aem : atheepmgr eep_9287_priv),
      aem.eepmap_priv.eep.typed →
      eep_9287_endian_mismatch c (eep_9287_check_eeprom c csum aem).2
        = eep_9287_endian_mismatch c aem ∧
      (eep_9287_check_eeprom c csum
          (eep_9287_check_eeprom c csum aem).2).2.eepmap_priv
        = aem.eepmap_priv) := by
  refine ⟨bswap_16_bswap_16, bswap_32_bswap_32, byte_reverse_twice,
    eep_9287_swap_fields_twice c, eep_9287_swap_fields_eepMisc c, ?_⟩
  intro csum aem ht
  refine ⟨?_, eep_9287_check_eeprom_twice c csum aem ht⟩
  unfold eep_9287_endian_mismatch
  rw [eep_9287_check_eeprom_host]
  by_cases hmagic : aem.eepmap_priv.ini.magic = c.AR5416_EEPROM_MAGIC
  · rw [eep_9287_check_eeprom_priv c csum aem hmagic]
    unfold eep_9287_reconciled
    split_ifs
    · simp only []
      rw [eep_9287_swap_fields_eepMisc]
    · rfl
  · rw [eep_9287_check_eeprom_priv_bad_magic c csum aem hmagic]

theorem eep_9287_reconcile_involutive_witness :
    bswap_16 (bswap_16 0x01e0) = 0x01e0 ∧
    (eep_9287_check_eeprom consts_small xor_words
        (aem_small 0xa55a (eep_small 0x0800 0x01e0 1))).2.eepmap_priv.eep
          .version = 0xe001 ∧
    (eep_9287_check_eeprom consts_small xor_words
      (eep_9287_check_eeprom consts_small xor_words
        (aem_small 0xa55a (eep_small 0x0800 0x01e0 1))).2).2.eepmap_priv.eep
          .version = 0x01e0 :=
  ⟨(eep_9287_reconcile_involutive consts_small).1 0x01e0 (by decide),
   by decide,
   (congrArg (fun p : eep_9287_priv => p.eep .version)
    (((eep_9287_reconcile_involutive consts_small).2.2.2.2.2 xor_words
      (aem_small 0xa55a (eep_small 0x0800 0x01e0 1))
      (fun f => by
        cases f <;> simp [aem_small, eep_small, ar9287_field.width])).2)).trans
    (by decide)⟩

end Atheepmgr
